import Mathlib

/-!
# Verification of core Martin components

A shallow embedding of the martin tile server's core logic, translated from
the Rust sources:

* `src/martin/src/fonts/mod.rs` — glyph range assembly (`get_font_range`,
  `resolve_fonts` mask construction);
* `src/martin/src/srv/tiles.rs` — tile composition (`get_tile_content`),
  content-encoding negotiation (`negotiate`, `encoding_rank`,
  `ranked_accept_items`, `is_identity_acceptable`, `recompress`);
* `src/martin/src/pg/table_source.rs` — SQL synthesis (`table_to_query`)
  and SRID resolution (`calc_srid`);
* `src/src/srv/server.rs` — the reserved-keyword list.

Machine integers of the source (`u32`, `usize`, `i32`) are modelled as
`Nat` / `Int`; none of the embedded operations can overflow in the ranges
the theorems quantify over.  Byte buffers (`Vec<u8>`) are modelled as
`List Nat`; strings as Lean `String` / `List Char`.
-/

set_option maxHeartbeats 1000000
set_option maxRecDepth 100000

namespace Martin

instance {ε α : Type} [DecidableEq ε] [DecidableEq α] : DecidableEq (Except ε α) := fun x y =>
  match x, y with
  | .ok a, .ok b =>
    if h : a = b then .isTrue (by rw [h]) else .isFalse (fun hh => by cases hh; exact h rfl)
  | .error a, .error b =>
    if h : a = b then .isTrue (by rw [h]) else .isFalse (fun hh => by cases hh; exact h rfl)
  | .ok _, .error _ => .isFalse (fun hh => by cases hh)
  | .error _, .ok _ => .isFalse (fun hh => by cases hh)

/-- The single-quote character (ASCII 39), used when building SQL literals. -/
def sqChar : Char := Char.ofNat 39

/-- Decimal digit characters, as produced by Rust's `Display` for integers.
The final catch-all arm is never reached (arguments are always `< 10`). -/
def digitChar : Nat → Char
  | 0 => '0' | 1 => '1' | 2 => '2' | 3 => '3' | 4 => '4'
  | 5 => '5' | 6 => '6' | 7 => '7' | 8 => '8' | 9 => '9'
  | _ => '0'

/-- Worker for `numChars`; the fuel (first argument) only bounds the
digit count and never runs out when it starts at the number itself. -/
def numCharsAux : Nat → Nat → List Char
  | 0, n => [digitChar n]
  | fuel + 1, n =>
    if n < 10 then [digitChar n]
    else numCharsAux fuel (n / 10) ++ [digitChar (n % 10)]

/-- Decimal rendering of a natural number, as Rust's `Display` for unsigned
integers prints it (most significant digit first). -/
def numChars (n : Nat) : List Char := numCharsAux n n

def numStr (n : Nat) : String := ⟨numChars n⟩

/-- Decimal rendering of a signed integer (Rust `Display` for `i32`). -/
def intStr (i : Int) : String :=
  if i < 0 then "-" ++ numStr i.natAbs else numStr i.natAbs

/-! ## Fonts (`src/martin/src/fonts/mod.rs`)

The constants of the source are inlined: `CP_RANGE_SIZE = 256`,
`MAX_UNICODE_CP = 0xFFFF`, `MAX_UNICODE_CP_RANGE_ID = 255`.  A `BitSet` of
codepoints is modelled as an ascending duplicate-free `List Nat` (BitSet
iteration order is ascending).  A registered font set
(`HashMap<String, FontSource>`) is modelled as a lookup function
`String → Option (List Nat)` returning the font's codepoint coverage. -/

/-- The error enum `FontError`, restricted to the variants reachable from
`get_font_range`'s embedded fragment. -/
inductive FontError
  | FontNotFound (id : String)
  | InvalidFontRangeStartEnd (s e : Nat)
  | InvalidFontRangeStart (s : Nat)
  | InvalidFontRangeEnd (e : Nat)
  | InvalidFontRange (s e : Nat)
  deriving DecidableEq

/-- The mask-building loop of `resolve_fonts` (lines 233-242): iterate
`v` over `0..=0xFFFF`, inserting `v` into the current bitset `bs` and
pushing `bs` after every 256th codepoint.  The fuel argument is an
artifact of the embedding; it is chosen (65536) so that it runs out
exactly when the loop bound `v ≤ 0xFFFF` fails. -/
def buildMasksFrom : Nat → Nat → List Nat → List (List Nat)
  | 0, _, _ => []
  | fuel + 1, v, bs =>
    if v ≤ 0xFFFF then
      let bs' := bs ++ [v]
      if v % 256 = 255 then bs' :: buildMasksFrom fuel (v + 1) []
      else buildMasksFrom fuel (v + 1) bs'
    else []

/-- `FontSources::masks`: 256 range masks, `masks[i] = {i*256, …, i*256+255}`. -/
def masks : List (List Nat) := buildMasksFrom 65536 0 []

/-- Target shape of one block of the mask-building loop. -/
def blockList (k : Nat) : Nat → List (List Nat)
  | 0 => []
  | j + 1 => List.range' (256 * k) 256 :: blockList (k + 1) j

/-- The per-font resolution loop of `FontSources::get_font_range`
(lines 296-312): walk the id list, looking each id up; unknown ids error
with `FontNotFound`; a font whose coverage meets the still-`needed` set
contributes `ds = needed ∩ cov` and removes its whole coverage from
`needed`; fonts with an empty intersection are skipped. -/
def resolveFonts (fonts : String → Option (List Nat)) :
    List String → List Nat → Except FontError (List (String × List Nat))
  | [], _ => .ok []
  | id :: rest, needed =>
    match fonts id with
    | none => .error (.FontNotFound id)
    | some cov =>
      let ds := needed.filter (fun cp => decide (cp ∈ cov))
      if ds.isEmpty then resolveFonts fonts rest needed
      else
        match resolveFonts fonts rest (needed.filter (fun cp => decide (cp ∉ cov))) with
        | .error e => .error e
        | .ok l => .ok ((id, ds) :: l)

/-- The `Fontstack` protobuf message as assembled by `get_font_range`:
the optional combined name (`set_name`/`mut_name`), the rendered SDF
glyphs as (contributing font id, codepoint) pairs in render order, and
the `range` field. -/
structure Fontstack where
  name : Option String
  glyphs : List (String × Nat)
  range : String
  deriving DecidableEq

/-- Result of `get_font_range`: the early `Ok(Vec::new())` return when no
font contributed, or the serialized `Glyphs` message holding one stack.
Protobuf serialization itself is an external primitive and is left at the
message level. -/
inductive FontRangeResult
  | empty
  | stack (s : Fontstack)
  deriving DecidableEq

/-- `FontSources::get_font_range` (lines 282-353).  Validation happens
before any font lookup; `needed` starts from the precomputed range mask.
Note: Rust's `self.masks[start/256]` panics when `start/256 > 255`; the
embedding's `getD` default is never reached under the theorems'
hypotheses. -/
def get_font_range (fonts : String → Option (List Nat)) (ids : List String)
    (start endCp : Nat) : Except FontError FontRangeResult :=
  if start > endCp then .error (.InvalidFontRangeStartEnd start endCp)
  else if start % 256 ≠ 0 then .error (.InvalidFontRangeStart start)
  else if endCp % 256 ≠ 255 then .error (.InvalidFontRangeEnd endCp)
  else if endCp - start ≠ 255 then .error (.InvalidFontRange start endCp)
  else
    let needed := masks.getD (start / 256) []
    match resolveFonts fonts ids needed with
    | .error e => .error e
    | .ok fontsList =>
      if fontsList.isEmpty then .ok .empty
      else
        .ok (.stack {
          name := fontsList.foldl (fun acc x =>
            match acc with
            | none => some x.1
            | some n => some (n ++ ", " ++ x.1)) none
          glyphs := fontsList.flatMap (fun x => x.2.map (fun cp => (x.1, cp)))
          range := numStr start ++ "-" ++ numStr endCp })

/-- The HTTP layer passes the font list as a comma-separated string;
`get_font_range` splits it with `ids.split(',')`. -/
def get_font_range_str (fonts : String → Option (List Nat)) (ids : String)
    (start endCp : Nat) : Except FontError FontRangeResult :=
  get_font_range fonts (ids.splitOn ",") start endCp

/-- The glyph list of a result (empty for the `Vec::new()` early return). -/
def renderedGlyphs : FontRangeResult → List (String × Nat)
  | .empty => []
  | .stack s => s.glyphs

/-- Formalization of the claim's phrase "the first font in the list whose
coverage contains the codepoint". -/
def firstCovering (fonts : String → Option (List Nat)) (ids : List String)
    (cp : Nat) : Option String :=
  ids.find? (fun id =>
    match fonts id with
    | some cov => decide (cp ∈ cov)
    | none => false)

/-! ## Tile composition and encoding negotiation (`src/martin/src/srv/tiles.rs`)

Tile metadata types come from the external `martin_tile_utils` crate and
are modelled from the spec (§3); the codec helpers (`encode_gzip`,
`decode_gzip`, `encode_brotli`, `decode_brotli`) live in `crate::utils`
(not part of the embedded sources) and are modelled from the spec's
contract that each encoder round-trips with its decoder. -/

/-- Modelled from the spec: tile formats of `martin_tile_utils::Format`
(§3: `{Mvt, Png, Jpeg, WebP, Json, …}`). -/
inductive Format
  | mvt | png | jpeg | webp | json
  deriving DecidableEq

/-- Modelled from the spec: data encodings of `martin_tile_utils::Encoding`
(§3: `{Uncompressed, Gzip, Brotli, Zstd, …}`); `internal` stands for the
image-container encoding. -/
inductive Encoding
  | uncompressed | gzip | brotli | zstd | internal
  deriving DecidableEq

/-- Modelled from the spec: `encoding.is_encoded()` holds iff the encoding
is neither `Uncompressed` nor the image-container encoding. -/
def Encoding.is_encoded : Encoding → Bool
  | .uncompressed => false
  | .internal => false
  | _ => true

/-- Modelled from the spec: `martin_tile_utils::TileInfo` (§3). -/
structure TileInfo where
  format : Format
  encoding : Encoding
  deriving DecidableEq

/-- `info.encoding(e)` — the `TileInfo` with its encoding replaced. -/
def TileInfo.withEncoding (i : TileInfo) (e : Encoding) : TileInfo :=
  { i with encoding := e }

/-- Tile bytes (`Vec<u8>` / `TileData`). -/
abbrev TileData := List Nat

/-- `crate::Tile`. -/
structure Tile where
  data : TileData
  info : TileInfo
  deriving DecidableEq

def Tile.new (d : TileData) (i : TileInfo) : Tile := ⟨d, i⟩

/-- `actix_http::ContentEncoding` (external; its five variants). -/
inductive ContentEncoding
  | gzip | brotli | zstd | deflate | identity
  deriving DecidableEq

/-- `actix_web::http::header::Encoding`: a known content coding or an
unknown token. -/
inductive HeaderEnc
  | known (c : ContentEncoding)
  | unknown (s : String)
  deriving DecidableEq

/-- `actix_http::header::Preference<Encoding>`: `*` or a specific coding. -/
inductive EncPreference
  | any
  | specific (e : HeaderEnc)
  deriving DecidableEq

/-- One parsed `Accept-Encoding` entry
(`QualityItem<Preference<Encoding>>`).  actix stores the quality as
thousandths: `q=1` is 1000, `q=0.5` is 500, `Quality::ZERO` is 0. -/
structure QualityItem where
  quality : Nat
  item : EncPreference
  deriving DecidableEq

/-- `crate::args::PreferredEncoding`. -/
inductive PreferredEncoding
  | gzip | brotli
  deriving DecidableEq

/-- The header value returned for a preferred encoding
(`HeaderEnc::gzip()` / `HeaderEnc::brotli()`). -/
def PreferredEncoding.header : PreferredEncoding → HeaderEnc
  | .gzip => .known .gzip
  | .brotli => .known .brotli

/-- `SUPPORTED_ENCODINGS` (tiles.rs lines 25-29). -/
def SUPPORTED_ENCODINGS : List HeaderEnc :=
  [.known .gzip, .known .brotli, .known .identity]

/-- `encoding_rank` (tiles.rs lines 304-333).  Entries with zero quality
rank 0 regardless of their encoding; otherwise the table ranks the
preferred codec 5, the other of gzip/brotli 4, zstd 3, deflate 2, unknown
codings 1, and identity and `*` 0. -/
def encoding_rank (qv : QualityItem) (prefer : PreferredEncoding) : Nat :=
  if qv.quality = 0 then 0
  else
    match prefer with
    | .gzip =>
      match qv.item with
      | .specific (.known .gzip) => 5
      | .specific (.known .brotli) => 4
      | .specific (.known .zstd) => 3
      | .specific (.known .deflate) => 2
      | .any => 0
      | .specific (.known .identity) => 0
      | .specific (.unknown _) => 1
    | .brotli =>
      match qv.item with
      | .specific (.known .brotli) => 5
      | .specific (.known .gzip) => 4
      | .specific (.known .zstd) => 3
      | .specific (.known .deflate) => 2
      | .any => 0
      | .specific (.known .identity) => 0
      | .specific (.unknown _) => 1

/-- The comparator of `ranked_accept_items`' `sort_by`: quality
descending, then server rank descending.  `rank_le prefer a b` holds when
the Rust comparator on `(a, b)` is not `Greater`, i.e. `a` may stay
before `b`. -/
def rank_le (prefer : PreferredEncoding) (a b : QualityItem) : Bool :=
  decide (b.quality < a.quality) ||
    (decide (b.quality = a.quality) &&
      decide (encoding_rank b prefer ≤ encoding_rank a prefer))

/-- Stable insertion: place `x` before the first element it need not
follow. -/
def insertLe {α : Type} (le : α → α → Bool) (x : α) : List α → List α
  | [] => [x]
  | y :: t => if le x y then x :: y :: t else y :: insertLe le x t

/-- Stable sort.  Rust's `sort_by` contract (a stable sort w.r.t. the
comparator's total preorder) determines the output uniquely; insertion
sort realizes it. -/
def insSort {α : Type} (le : α → α → Bool) : List α → List α
  | [] => []
  | x :: t => insertLe le x (insSort le t)

/-- `ranked_accept_items` (tiles.rs lines 283-303): stable sort by
quality descending then rank descending.  (The Rust early return for an
empty list yields the same empty result.) -/
def ranked_accept_items (accept : List QualityItem)
    (prefer : PreferredEncoding) : List QualityItem :=
  insSort (rank_le prefer) accept

/-- The `matches!(enc, Preference::Specific(enc) if SUPPORTED_ENCODINGS.contains(enc))`
predicate of `negotiate`. -/
def isSupportedSpecific : EncPreference → Bool
  | .specific e => decide (e ∈ SUPPORTED_ENCODINGS)
  | .any => false

/-- `is_identity_acceptable` (tiles.rs lines 259-282): scan the
quality-sorted items; the first `identity` or `*` entry decides
(acceptable iff its quality is positive); an exhausted list means
implicit acceptance. -/
def is_identity_acceptable : List QualityItem → Bool
  | [] => true
  | q :: t =>
    match q.item with
    | .specific (.known .identity) => decide (0 < q.quality)
    | .any => decide (0 < q.quality)
    | _ => is_identity_acceptable t

/-- `negotiate` (tiles.rs lines 219-255). -/
def negotiate (accept_enc : List QualityItem)
    (preferred_enc : PreferredEncoding) : Option HeaderEnc :=
  if accept_enc.isEmpty then
    some preferred_enc.header
  else if accept_enc.head?.map (fun q => q.item) = some EncPreference.any ∧
      accept_enc.length = 1 then
    some preferred_enc.header
  else
    let acceptable_items := ranked_accept_items accept_enc preferred_enc
    let identity_acceptable := is_identity_acceptable acceptable_items
    let matched : Option EncPreference :=
      ((acceptable_items.filter (fun q => decide (0 < q.quality))).find?
        (fun q => isSupportedSpecific q.item)).map (fun q => q.item)
    match matched with
    | some (.specific enc) => some enc
    | _ => if identity_acceptable then some (.known .identity) else none

/-- Errors surfaced by the embedded tile pipeline.  `cantMerge` and
`storedEncodingNotAccepted` are both `ErrorBadRequest` (HTTP 400). -/
inductive SrvError
  | cantMerge (info : TileInfo) (z : Nat)
  | storedEncodingNotAccepted (info : TileInfo)
  | codecFailure
  deriving DecidableEq

/-- Modelled from the spec: gzip compression (`crate::utils::encode_gzip`,
an external codec primitive; §4.6 requires only that it round-trips). -/
def encode_gzip (d : TileData) : TileData := 31 :: 139 :: d

/-- Modelled from the spec: gzip decompression
(`crate::utils::decode_gzip`); fails on data its encoder did not make. -/
def decode_gzip : TileData → Except SrvError TileData
  | 31 :: 139 :: t => .ok t
  | _ => .error .codecFailure

/-- Modelled from the spec: brotli compression
(`crate::utils::encode_brotli`). -/
def encode_brotli (d : TileData) : TileData := 206 :: 178 :: d

/-- Modelled from the spec: brotli decompression
(`crate::utils::decode_brotli`). -/
def decode_brotli : TileData → Except SrvError TileData
  | 206 :: 178 :: t => .ok t
  | _ => .error .codecFailure

/-- `to_encoding` (tiles.rs lines 369-377). -/
def to_encoding : ContentEncoding → Option Encoding
  | .identity => some .uncompressed
  | .gzip => some .gzip
  | .brotli => some .brotli
  | _ => none

/-- `encode` (tiles.rs lines 335-346). -/
def encode (tile : Tile) (enc : ContentEncoding) : Except SrvError Tile :=
  match enc with
  | .brotli => .ok (Tile.new (encode_brotli tile.data) (tile.info.withEncoding .brotli))
  | .gzip => .ok (Tile.new (encode_gzip tile.data) (tile.info.withEncoding .gzip))
  | _ => .ok tile

/-- `decode` (tiles.rs lines 348-367). -/
def decode (tile : Tile) : Except SrvError Tile :=
  if tile.info.encoding.is_encoded then
    match tile.info.encoding with
    | .gzip => (decode_gzip tile.data).map
        (fun d => Tile.new d (tile.info.withEncoding .uncompressed))
    | .brotli => (decode_brotli tile.data).map
        (fun d => Tile.new d (tile.info.withEncoding .uncompressed))
    | _ => .error (.storedEncodingNotAccepted tile.info)
  else .ok tile

/-- `DynTileSource::recompress` (tiles.rs lines 178-217); `accept_enc` is
the parsed `Accept-Encoding` header, `preferred_enc` the server
configuration. -/
def recompress (data : TileData) (info : TileInfo)
    (accept_enc : Option (List QualityItem))
    (preferred_enc : Option PreferredEncoding) : Except SrvError Tile :=
  let tile := Tile.new data info
  match accept_enc with
  | some accept_enc =>
    let step1 : Except SrvError Tile :=
      if info.encoding.is_encoded ∧
          ¬ accept_enc.any (fun e =>
            match e.item with
            | .specific (.known enc) => decide (to_encoding enc = some info.encoding)
            | _ => false)
      then decode tile
      else .ok tile
    match step1 with
    | .error ee => .error ee
    | .ok tile1 =>
      if tile1.info.encoding = .uncompressed then
        let prefer :=
          match preferred_enc with
          | some .brotli => PreferredEncoding.brotli
          | _ => PreferredEncoding.gzip
        match negotiate accept_enc prefer with
        | some (.known enc) => encode tile1 enc
        | _ => .ok tile1
      else .ok tile1
  | none => decode tile

/-- `DynTileSource::get_tile_content` (tiles.rs lines 124-176).  The
per-source fetch results are given as `tiles`, in `source_ids` order (the
concurrent `try_join_all` preserves order and the cache layer is
transparent to the produced value); `info` is the shared `TileInfo` of
the sources; `z` only feeds the error message.  When exactly one tile is
non-empty, `tiles.swap_remove(last_non_empty)` returns precisely that
tile. -/
def get_tile_content (tiles : List TileData) (info : TileInfo)
    (accept_enc : Option (List QualityItem))
    (preferred_enc : Option PreferredEncoding) (z : Nat) : Except SrvError Tile :=
  let nonEmpty := tiles.filter (fun t => !t.isEmpty)
  match nonEmpty.length with
  | 1 => recompress (nonEmpty.headD []) info accept_enc preferred_enc
  | 0 => .ok (Tile.new [] info)
  | _ =>
    if info.format = .mvt ∧
        (info.encoding = .uncompressed ∨ info.encoding = .gzip) then
      recompress tiles.flatten info accept_enc preferred_enc
    else .error (.cantMerge info z)

/-- Spec-following definition for C3 (the claim's words, not the code):
the rank table of §4.6 with no special-casing of zero-quality entries. -/
def encoding_rank_spec (qv : QualityItem) (prefer : PreferredEncoding) : Nat :=
  match prefer with
  | .gzip =>
    match qv.item with
    | .specific (.known .gzip) => 5
    | .specific (.known .brotli) => 4
    | .specific (.known .zstd) => 3
    | .specific (.known .deflate) => 2
    | .any => 0
    | .specific (.known .identity) => 0
    | .specific (.unknown _) => 1
  | .brotli =>
    match qv.item with
    | .specific (.known .brotli) => 5
    | .specific (.known .gzip) => 4
    | .specific (.known .zstd) => 3
    | .specific (.known .deflate) => 2
    | .any => 0
    | .specific (.known .identity) => 0
    | .specific (.unknown _) => 1

/-- Spec-following comparator for C3. -/
def rank_le_spec (prefer : PreferredEncoding) (a b : QualityItem) : Bool :=
  decide (b.quality < a.quality) ||
    (decide (b.quality = a.quality) &&
      decide (encoding_rank_spec b prefer ≤ encoding_rank_spec a prefer))

/-- Spec-following definition for C3: the first entry of the
spec's stable sort with positive quality and a supported encoding. -/
def firstAcceptableSpec (accept : List QualityItem)
    (prefer : PreferredEncoding) : Option QualityItem :=
  (insSort (rank_le_spec prefer) accept).find?
    (fun q => decide (0 < q.quality) && isSupportedSpecific q.item)

/-! ## PostGIS table sources (`src/martin/src/pg/table_source.rs`)

The SQL string built by `table_to_query` is embedded verbatim; the async
bounds computation does not influence the produced SQL and is omitted.
The identifier/literal escape helpers live in the external
`postgres_protocol` crate and are modelled from the spec's requirement
that identifiers and literals be SQL-escaped. -/

/-- `calc_srid` (table_source.rs lines 271-297); the Rust `match` arms in
order: `(0, 0, Some d)`, `(0, 0, None)`, `(0, cfg, _)`, `(src, 0, _)`,
`(src, cfg, _) if src != cfg`, `(_, cfg, _)`. -/
def calc_srid (db_srid cfg_srid : Int) (default_srid : Option Int) : Option Int :=
  if db_srid = 0 ∧ cfg_srid = 0 then default_srid
  else if db_srid = 0 then some cfg_srid
  else if cfg_srid = 0 then some db_srid
  else if db_srid ≠ cfg_srid then none
  else some cfg_srid

/-- Modelled from the spec: `postgres_protocol::escape::escape_identifier`
(external) — wrap in double quotes, doubling embedded double quotes
("all identifiers MUST be escaped per SQL-identifier rules"). -/
def escape_identifier (s : String) : String :=
  "\"" ++ ⟨s.data.flatMap (fun c => if c = '"' then ['"', '"'] else [c])⟩ ++ "\""

/-- Modelled from the spec: `postgres_protocol::escape::escape_literal`
(external) — wrap in single quotes, doubling embedded single quotes
("literal values MUST be escaped as SQL literals"; the helper's `E'…'`
form for backslashes is not modelled — the theorems' hypotheses restrict
the escaped strings to identifier characters). -/
def escape_literal (s : String) : String :=
  sqChar.toString ++
    ⟨s.data.flatMap (fun c => if c = sqChar then [sqChar, sqChar] else [c])⟩ ++
    sqChar.toString

/-- The fields of `TableInfo` consumed by the SQL synthesis.  `properties`
holds the keys of the configured property map in iteration order;
`prop_mapping` is the column-name mapping.  Fields irrelevant to the
query string (bounds, geometry index, view flag, geometry type, tilejson)
are omitted. -/
structure TableInfo where
  schema : String
  table : String
  geometry_column : String
  srid : Int
  properties : Option (List String)
  prop_mapping : String → Option String
  id_column : Option String
  extent : Option Nat
  buffer : Option Nat
  clip_geom : Option Bool
  layer_id : Option String

/-- `escape_with_alias` (table_source.rs lines 85-96). -/
def escape_with_alias (mapping : String → Option String) (field : String) : String :=
  let column := (mapping field).getD field
  if field = column then ", " ++ escape_identifier column
  else ", " ++ escape_identifier column ++ " AS " ++ escape_identifier field

/-- Rust's `Display` for `bool`. -/
def boolStr (b : Bool) : String := if b then "true" else "false"

/-- Modelled from the spec: the `margin` value is the `f64` quotient
`buffer / extent`; its decimal `Display` rendering is abstracted to the
exact ratio notation the spec itself uses (§4.4 `margin => buffer/extent`).
The claims only inspect which characters can occur in it. -/
def marginStr (buffer extent : Nat) : String :=
  numStr buffer ++ "/" ++ numStr extent

/-- `collect::<String>()` over the property fragments (a left fold). -/
def concatAll (l : List String) : String := l.foldl (fun a b => a ++ b) ""

/-- The `properties` fragment of the query (lines 132-139). -/
def propertiesStr (info : TableInfo) : String :=
  match info.properties with
  | some props => concatAll (props.map (fun column => escape_with_alias info.prop_mapping column))
  | none => ""

/-- The `(id_name, id_field)` pair (lines 141-148). -/
def idPairStr (info : TableInfo) : String × String :=
  match info.id_column with
  | some id_column =>
    (", " ++ escape_literal id_column, escape_with_alias info.prop_mapping id_column)
  | none => ("", "")

/-- `bbox_search` (lines 153-166). -/
def bboxSearchStr (buffer extent : Nat) (supports_tile_margin : Bool) : String :=
  if buffer = 0 then "ST_TileEnvelope($1::integer, $2::integer, $3::integer)"
  else if supports_tile_margin then
    "ST_TileEnvelope($1::integer, $2::integer, $3::integer, margin => " ++
      marginStr buffer extent ++ ")"
  else "ST_TileEnvelope($1::integer, $2::integer, $3::integer)"

/-- `limit_clause` (line 168). -/
def limitStr (max_feature_count : Option Nat) : String :=
  match max_feature_count with
  | some v => "LIMIT " ++ numStr v
  | none => ""

/-- Rust `char::is_whitespace`, restricted to the characters that can
occur in the generated SQL. -/
def isRustWs (c : Char) : Bool :=
  decide (c = ' ') || decide (c = '\n') || decide (c = '\t') || decide (c = '\r')

/-- `str::trim`: drop whitespace from both ends. -/
def trimChars (s : List Char) : List Char :=
  ((s.dropWhile isRustWs).reverse.dropWhile isRustWs).reverse

def rustTrim (s : String) : String := ⟨trimChars s.data⟩

/-- The body of the `format!` template of `table_to_query` (lines
171-190) with the interpolations substituted: everything between the
leading and trailing newline of the raw string. -/
def tableQueryCore (id : String) (info : TableInfo)
    (supports_tile_margin : Bool) (max_feature_count : Option Nat) : String :=
  let schema := escape_identifier info.schema
  let table := escape_identifier info.table
  let geometry_column := escape_identifier info.geometry_column
  let properties := propertiesStr info
  let id_name := (idPairStr info).1
  let id_field := (idPairStr info).2
  let extent := info.extent.getD 4096
  let buffer := info.buffer.getD 64
  let bbox_search := bboxSearchStr buffer extent supports_tile_margin
  let limit_clause := limitStr max_feature_count
  let layer_id := escape_literal (info.layer_id.getD id)
  let clip_geom := info.clip_geom.getD true
  "SELECT\n  ST_AsMVT(tile, " ++ layer_id ++ ", " ++ numStr extent ++ ", " ++
    sqChar.toString ++ "geom" ++ sqChar.toString ++ id_name ++
    ")\nFROM (\n  SELECT\n    ST_AsMVTGeom(\n        ST_Transform(ST_CurveToLine(" ++
    geometry_column ++
    "), 3857),\n        ST_TileEnvelope($1::integer, $2::integer, $3::integer),\n        " ++
    numStr extent ++ ", " ++ numStr buffer ++ ", " ++ boolStr clip_geom ++
    "\n    ) AS geom\n    " ++ id_field ++ properties ++
    "\n  FROM\n    " ++ schema ++ "." ++ table ++
    "\n  WHERE\n    " ++ geometry_column ++ " && ST_Transform(" ++ bbox_search ++
    ", " ++ intStr info.srid ++
    ")\n  " ++ limit_clause ++ "\n) AS tile;"

/-- The SQL string produced by `table_to_query` (lines 98-194): the
`format!` template (a raw string that begins and ends with a newline)
with the interpolations substituted, then trimmed.
`supports_tile_margin` abstracts `pool.supports_tile_margin()`
(true iff the pool reports PostGIS ≥ 3.1). -/
def table_to_query_sql (id : String) (info : TableInfo)
    (supports_tile_margin : Bool) (max_feature_count : Option Nat) : String :=
  rustTrim ("\n" ++ tableQueryCore id info supports_tile_margin max_feature_count ++ "\n")

/-- `p` is an initial run of `s`. -/
def begins : List Char → List Char → Bool
  | [], _ => true
  | _ :: _, [] => false
  | a :: p, b :: s => decide (a = b) && begins p s

/-- Number of (possibly overlapping) occurrences of the pattern `pat` in
`s`: the number of positions at which `pat` begins. -/
def countOcc (pat : List Char) : List Char → Nat
  | [] => 0
  | c :: t => (if begins pat (c :: t) then 1 else 0) + countOcc pat t

/-- No nonempty proper suffix of `x` shorter than `p` is an initial run
of `p`; then an occurrence of `p` cannot straddle the boundary after `x`. -/
def noStraddleB (p x : List Char) : Bool :=
  x.tails.all (fun s =>
    s.isEmpty || decide (p.length ≤ s.length) || !(begins s p))

/-- Identifier-character strings: ASCII letters, digits or underscore.
The theorems about the generated SQL restrict names to this set (a name
containing `$`, quotes or parentheses could fabricate or hide the counted
SQL tokens inside an escaped identifier). -/
def idOk (s : String) : Prop := ∀ c ∈ s.data, c.isAlphanum ∨ c = '_'

instance (s : String) : Decidable (idOk s) := by
  unfold idOk
  infer_instance

/-- A one-font registry (used to instantiate the font theorems on a
closed input): the single font `A` covers codepoints 3 and 500. -/
def fontsW : String → Option (List Nat) :=
  fun i => if i = "A" then some [3, 500] else none

/-- A minimal concrete table configuration (used to instantiate the
SQL-shape theorems on a closed input). -/
def sampleTable : TableInfo :=
  { schema := "public", table := "tbl", geometry_column := "geom",
    srid := 4326, properties := none, prop_mapping := fun _ => none,
    id_column := none, extent := none, buffer := none, clip_geom := none,
    layer_id := none }

/-- A richer concrete table configuration: an id column, one mapped
property, explicit extent/buffer. -/
def sampleTableFull : TableInfo :=
  { schema := "public", table := "tbl", geometry_column := "geom",
    srid := 3857, properties := some ["name"],
    prop_mapping := fun s => if s = "name" then some "Name_0" else none,
    id_column := some "gid", extent := some 8192, buffer := some 32,
    clip_geom := some false, layer_id := some "layer1" }

/-! ## Server (`src/src/srv/server.rs`) -/

/-- `RESERVED_KEYWORDS` (server.rs lines 31-35). -/
def RESERVED_KEYWORDS : List String :=
  ["catalog", "config", "health", "help", "index", "manifest", "refresh",
   "reload", "status"]

/-! ## Auxiliary theorems -/

theorem digitChar_mem (k : Nat) :
    digitChar k ∈ ['0', '1', '2', '3', '4', '5', '6', '7', '8', '9'] := by
  match k with
  | 0 | 1 | 2 | 3 | 4 | 5 | 6 | 7 | 8 | 9 => decide
  | n + 10 => show '0' ∈ _; decide

theorem numCharsAux_mem :
    ∀ (fuel n : Nat), ∀ c ∈ numCharsAux fuel n,
      c ∈ ['0', '1', '2', '3', '4', '5', '6', '7', '8', '9'] := by
  intro fuel
  induction fuel with
  | zero =>
    intro n c hc
    simp only [numCharsAux, List.mem_singleton] at hc
    subst hc; exact digitChar_mem n
  | succ fuel ih =>
    intro n c hc
    rw [numCharsAux] at hc
    split at hc
    · simp only [List.mem_singleton] at hc
      subst hc; exact digitChar_mem n
    · rcases List.mem_append.1 hc with h | h
      · exact ih (n / 10) c h
      · simp only [List.mem_singleton] at h
        subst h; exact digitChar_mem (n % 10)

theorem numChars_mem (n : Nat) :
    ∀ c ∈ numChars n, c ∈ ['0', '1', '2', '3', '4', '5', '6', '7', '8', '9'] :=
  numCharsAux_mem n n

theorem buildMasksFrom_block :
    ∀ (m v : Nat) (bs : List Nat), 0 < m → m ≤ 256 → v % 256 = 256 - m → v + m ≤ 65536 →
      buildMasksFrom (65536 - v) v bs =
        (bs ++ List.range' v m) :: buildMasksFrom (65536 - (v + m)) (v + m) [] := by
  intro m
  induction m with
  | zero => omega
  | succ m ih =>
    intro v bs _ hm256 hmod hle
    have hv : v < 65536 := by omega
    have hfuel : 65536 - v = (65536 - (v + 1)) + 1 := by omega
    rw [hfuel]
    by_cases hm : m = 0
    · subst hm
      have h255 : v % 256 = 255 := by omega
      simp only [buildMasksFrom, if_pos (by omega : v ≤ 0xFFFF), h255, if_pos rfl]
      simp [List.range'_succ]
    · have h255 : v % 256 ≠ 255 := by omega
      simp only [buildMasksFrom, if_pos (by omega : v ≤ 0xFFFF), if_neg h255]
      have hmod' : (v + 1) % 256 = 256 - m := by omega
      have := ih (v + 1) (bs ++ [v]) (by omega) (by omega) hmod' (by omega)
      rw [this]
      have : v + 1 + m = v + (m + 1) := by omega
      rw [this, List.range'_succ]
      simp

theorem buildMasksFrom_blocks :
    ∀ (j k : Nat), k + j = 256 →
      buildMasksFrom (65536 - 256 * k) (256 * k) [] = blockList k j := by
  intro j
  induction j with
  | zero =>
    intro k hk
    have : k = 256 := by omega
    subst this
    simp [buildMasksFrom, blockList]
  | succ j ih =>
    intro k hk
    have h := buildMasksFrom_block 256 (256 * k) [] (by omega) (by omega) (by omega) (by omega)
    rw [h]
    have : 256 * k + 256 = 256 * (k + 1) := by ring
    rw [this, ih (k + 1) (by omega)]
    simp [blockList]

theorem masks_eq : masks = blockList 0 256 := by
  have := buildMasksFrom_blocks 256 0 (by omega)
  simpa [masks] using this

theorem blockList_getD :
    ∀ (j k r : Nat), r < j →
      (blockList k j).getD r [] = List.range' (256 * (k + r)) 256 := by
  intro j
  induction j with
  | zero => omega
  | succ j ih =>
    intro k r hr
    cases r with
    | zero => simp [blockList]
    | succ r =>
      have := ih (k + 1) r (by omega)
      simp only [blockList, List.getD_cons_succ, this]
      congr 2
      omega

theorem masks_getD (r : Nat) (hr : r < 256) :
    masks.getD r [] = List.range' (256 * r) 256 := by
  rw [masks_eq, blockList_getD 256 0 r hr]
  simp

/-- Master correctness lemma for the font-resolution loop: with every id
registered, the loop succeeds; every contributed codepoint came from
`needed`; a codepoint is contributed iff it is in `needed` and covered by
some listed font; each contribution is attributed to the first covering
font; contributions are pairwise disjoint, nonempty and duplicate-free. -/
theorem resolveFonts_spec (fonts : String → Option (List Nat)) :
    ∀ (ids : List String) (needed : List Nat),
      (∀ id ∈ ids, (fonts id).isSome) → needed.Nodup →
      ∃ l, resolveFonts fonts ids needed = .ok l ∧
        (∀ e ∈ l, ∀ cp ∈ e.2, cp ∈ needed) ∧
        (∀ cp, (∃ e ∈ l, cp ∈ e.2) ↔
          (cp ∈ needed ∧ ∃ id ∈ ids, ∃ cov, fonts id = some cov ∧ cp ∈ cov)) ∧
        (∀ e ∈ l, ∀ cp ∈ e.2, firstCovering fonts ids cp = some e.1) ∧
        l.Pairwise (fun a b => ∀ cp ∈ a.2, cp ∉ b.2) ∧
        (∀ e ∈ l, e.2 ≠ [] ∧ e.2.Nodup) := by
  intro ids
  induction ids with
  | nil =>
    intro needed _ _
    exact ⟨[], rfl, by simp, by simp, by simp, by simp, by simp⟩
  | cons id rest ih =>
    intro needed hreg hnd
    obtain ⟨cov, hcov⟩ : ∃ cov, fonts id = some cov := by
      have hs := hreg id (by simp)
      cases h : fonts id with
      | none => rw [h] at hs; simp at hs
      | some c => exact ⟨c, rfl⟩
    have hrest : ∀ i ∈ rest, (fonts i).isSome := fun i hi => hreg i (by simp [hi])
    have hmem_ds : ∀ cp, cp ∈ needed.filter (fun cp => decide (cp ∈ cov)) ↔
        cp ∈ needed ∧ cp ∈ cov := by
      intro cp
      simp [List.mem_filter]
    have hmem_nd : ∀ cp, cp ∈ needed.filter (fun cp => decide (cp ∉ cov)) ↔
        cp ∈ needed ∧ cp ∉ cov := by
      intro cp
      simp [List.mem_filter]
    by_cases hds : needed.filter (fun cp => decide (cp ∈ cov)) = []
    · -- this font contributes nothing and is skipped; `needed` is unchanged
      have hdead : ∀ cp ∈ needed, cp ∉ cov := by
        intro cp hcp hc
        have : cp ∈ needed.filter (fun cp => decide (cp ∈ cov)) := (hmem_ds cp).2 ⟨hcp, hc⟩
        rw [hds] at this
        exact absurd this (List.not_mem_nil cp)
      obtain ⟨l, hres, h1, h2, h3, h4, h5⟩ := ih needed hrest hnd
      refine ⟨l, ?_, h1, ?_, ?_, h4, h5⟩
      · simp only [resolveFonts, hcov, hds, List.isEmpty_nil, if_true]
        exact hres
      · intro cp
        rw [h2 cp]
        constructor
        · rintro ⟨hcp, i, hi, c, hic, hcpc⟩
          exact ⟨hcp, i, by simp [hi], c, hic, hcpc⟩
        · rintro ⟨hcp, i, hi, c, hic, hcpc⟩
          rcases List.mem_cons.1 hi with rfl | hi'
          · rw [hcov] at hic
            cases hic
            exact absurd hcpc (hdead cp hcp)
          · exact ⟨hcp, i, hi', c, hic, hcpc⟩
      · intro e he cp hcp
        have hcpn : cp ∈ needed := h1 e he cp hcp
        have : firstCovering fonts rest cp = some e.1 := h3 e he cp hcp
        simp only [firstCovering, List.find?_cons] at this ⊢
        have htest : (match fonts id with
            | some cov => decide (cp ∈ cov)
            | none => false) = false := by
          rw [hcov]
          simp [hdead cp hcpn]
        rw [htest]
        exact this
    · -- this font contributes `ds`; its whole coverage leaves `needed`
      obtain ⟨l, hres, h1, h2, h3, h4, h5⟩ :=
        ih (needed.filter (fun cp => decide (cp ∉ cov))) hrest (hnd.filter _)
      refine ⟨(id, needed.filter (fun cp => decide (cp ∈ cov))) :: l, ?_, ?_, ?_, ?_, ?_, ?_⟩
      · simp only [resolveFonts, hcov]
        rw [if_neg (by simpa [List.isEmpty_iff] using hds)]
        rw [hres]
      · intro e he cp hcp
        rcases List.mem_cons.1 he with rfl | he'
        · exact List.mem_of_mem_filter hcp
        · exact List.mem_of_mem_filter (h1 e he' cp hcp)
      · intro cp
        constructor
        · rintro ⟨e, he, hcp⟩
          rcases List.mem_cons.1 he with rfl | he'
          · have := (hmem_ds cp).1 hcp
            exact ⟨this.1, id, by simp, cov, hcov, this.2⟩
          · have := (h2 cp).1 ⟨e, he', hcp⟩
            obtain ⟨hcpn, i, hi, c, hic, hcpc⟩ := this
            have := (hmem_nd cp).1 hcpn
            exact ⟨this.1, i, by simp [hi], c, hic, hcpc⟩
        · rintro ⟨hcp, i, hi, c, hic, hcpc⟩
          rcases List.mem_cons.1 hi with rfl | hi'
          · rw [hcov] at hic
            injection hic with hcc
            subst hcc
            exact ⟨(i, needed.filter (fun cp => decide (cp ∈ cov))), by simp,
              (hmem_ds cp).2 ⟨hcp, hcpc⟩⟩
          · by_cases hcpcov : cp ∈ cov
            · exact ⟨(id, needed.filter (fun cp => decide (cp ∈ cov))), by simp,
                (hmem_ds cp).2 ⟨hcp, hcpcov⟩⟩
            · have : ∃ e ∈ l, cp ∈ e.2 :=
                (h2 cp).2 ⟨(hmem_nd cp).2 ⟨hcp, hcpcov⟩, i, hi', c, hic, hcpc⟩
              obtain ⟨e, he', hcp'⟩ := this
              exact ⟨e, by simp [he'], hcp'⟩
      · intro e he cp hcp
        rcases List.mem_cons.1 he with rfl | he'
        · have hcpc : cp ∈ cov := ((hmem_ds cp).1 hcp).2
          simp only [firstCovering, List.find?_cons]
          have htest : (match fonts id with
              | some cov => decide (cp ∈ cov)
              | none => false) = true := by
            rw [hcov]
            simp [hcpc]
          rw [htest]
        · have hcpn := h1 e he' cp hcp
          have hcpcov : cp ∉ cov := ((hmem_nd cp).1 hcpn).2
          have := h3 e he' cp hcp
          simp only [firstCovering, List.find?_cons] at this ⊢
          have htest : (match fonts id with
              | some cov => decide (cp ∈ cov)
              | none => false) = false := by
            rw [hcov]
            simp [hcpcov]
          rw [htest]
          exact this
      · refine List.Pairwise.cons ?_ h4
        intro b hb cp hcp hcp'
        have hcpc : cp ∈ cov := ((hmem_ds cp).1 hcp).2
        have := h1 b hb cp hcp'
        exact ((hmem_nd cp).1 this).2 hcpc
      · intro e he
        rcases List.mem_cons.1 he with rfl | he'
        · exact ⟨hds, hnd.filter _⟩
        · exact h5 e he'

theorem nodup_flatMap_disjoint :
    ∀ (l : List (String × List Nat)), (∀ e ∈ l, e.2.Nodup) →
      l.Pairwise (fun a b => ∀ cp ∈ a.2, cp ∉ b.2) →
      (l.flatMap (fun e => e.2)).Nodup := by
  intro l
  induction l with
  | nil => simp
  | cons a t ih =>
    intro h5 h4
    rw [List.flatMap_cons]
    refine List.Nodup.append (h5 a (by simp)) (ih (fun e he => h5 e (by simp [he])) h4.of_cons) ?_
    rw [List.disjoint_left]
    intro cp hcp hcp'
    rw [List.mem_flatMap] at hcp'
    obtain ⟨b, hb, hcpb⟩ := hcp'
    exact (List.rel_of_pairwise_cons h4 hb) cp hcp hcpb

/-- If a font's coverage no longer meets `needed`, a later occurrence of
that font in the id list is skipped without effect. -/
theorem resolveFonts_dead (fonts : String → Option (List Nat)) (id : String)
    (cov : List Nat) (hid : fonts id = some cov) :
    ∀ (t l₂ : List String) (needed : List Nat),
      needed.filter (fun cp => decide (cp ∈ cov)) = [] →
      resolveFonts fonts (t ++ id :: l₂) needed = resolveFonts fonts (t ++ l₂) needed := by
  intro t
  induction t with
  | nil =>
    intro l₂ needed hf
    simp only [List.nil_append, resolveFonts, hid, hf, List.isEmpty_nil, if_true]
  | cons b t ih =>
    intro l₂ needed hf
    cases hb : fonts b with
    | none => simp only [List.cons_append, resolveFonts, hb]
    | some covb =>
      simp only [List.cons_append, resolveFonts, hb, List.append_eq]
      by_cases hdsb : (needed.filter (fun cp => decide (cp ∈ covb))).isEmpty
      · rw [if_pos hdsb, if_pos hdsb]
        exact ih l₂ needed hf
      · rw [if_neg hdsb, if_neg hdsb]
        have hsub : (needed.filter (fun cp => decide (cp ∉ covb))).filter
            (fun cp => decide (cp ∈ cov)) = [] := by
          rw [List.filter_eq_nil_iff] at hf ⊢
          intro a ha
          exact hf a (List.mem_of_mem_filter ha)
        rw [ih l₂ _ hsub]

/-- An occurrence of an id that already appeared earlier in the list can
be dropped without changing the resolution result. -/
theorem resolveFonts_dup (fonts : String → Option (List Nat)) :
    ∀ (l₁ : List String) (id : String) (l₂ : List String) (needed : List Nat),
      (∀ i ∈ l₁, (fonts i).isSome) → id ∈ l₁ →
      resolveFonts fonts (l₁ ++ id :: l₂) needed = resolveFonts fonts (l₁ ++ l₂) needed := by
  intro l₁
  induction l₁ with
  | nil =>
    intro id l₂ needed _ hid
    exact absurd hid (List.not_mem_nil id)
  | cons a t ih =>
    intro id l₂ needed hreg hid
    obtain ⟨cova, hcova⟩ : ∃ c, fonts a = some c := by
      have hs := hreg a (by simp)
      cases h : fonts a with
      | none => rw [h] at hs; simp at hs
      | some c => exact ⟨c, rfl⟩
    have hregt : ∀ i ∈ t, (fonts i).isSome := fun i hi => hreg i (by simp [hi])
    simp only [List.cons_append, resolveFonts, hcova, List.append_eq]
    by_cases hds : (needed.filter (fun cp => decide (cp ∈ cova))).isEmpty
    · rw [if_pos hds, if_pos hds]
      rcases List.mem_cons.1 hid with rfl | h
      · by_cases hidt : id ∈ t
        · exact ih id l₂ needed hregt hidt
        · exact resolveFonts_dead fonts id cova hcova t l₂ needed
            (by rwa [List.isEmpty_iff] at hds)
      · exact ih id l₂ needed hregt h
    · rw [if_neg hds, if_neg hds]
      rcases List.mem_cons.1 hid with rfl | h
      · by_cases hidt : id ∈ t
        · rw [ih id l₂ _ hregt hidt]
        · have hsub : (needed.filter (fun cp => decide (cp ∉ cova))).filter
              (fun cp => decide (cp ∈ cova)) = [] := by
            rw [List.filter_eq_nil_iff]
            intro x hx
            have hx' := List.mem_filter.1 hx
            simp only [decide_eq_true_eq] at hx' ⊢
            simp [hx'.2]
          rw [resolveFonts_dead fonts id cova hcova t l₂ _ hsub]
      · rw [ih id l₂ _ hregt h]

/-- `get_font_range` only depends on the id list through `resolveFonts`. -/
theorem get_font_range_congr_ids (fonts : String → Option (List Nat))
    (ids ids' : List String) (s e : Nat)
    (h : resolveFonts fonts ids (masks.getD (s / 256) []) =
         resolveFonts fonts ids' (masks.getD (s / 256) [])) :
    get_font_range fonts ids s e = get_font_range fonts ids' s e := by
  simp only [get_font_range, h]

theorem map_snd_flatMap (l : List (String × List Nat)) :
    (l.flatMap (fun x => x.2.map (fun cp => (x.1, cp)))).map Prod.snd =
      l.flatMap (fun e => e.2) := by
  induction l with
  | nil => rfl
  | cons a t ih =>
    simp only [List.flatMap_cons, List.map_append, ih, List.map_map]
    congr 1
    simp

/-! ## Claim theorems for the font module -/

/-- C6: `get_font_range` returns a glyph result only when the requested
range satisfies `start ≤ end`, `start % 256 = 0`, `end % 256 = 255` and
`end - start = 255`; any violation fails with the corresponding error
(`InvalidFontRangeStartEnd`, `InvalidFontRangeStart`,
`InvalidFontRangeEnd`, `InvalidFontRange`), checked in that order.  The
error is the same for every font registry and id list, i.e. validation
happens before any font lookup. -/
theorem get_font_range_validation (fonts : String → Option (List Nat))
    (ids : List String) (s e : Nat) :
    (s > e → get_font_range fonts ids s e = .error (.InvalidFontRangeStartEnd s e)) ∧
    (s ≤ e → s % 256 ≠ 0 →
      get_font_range fonts ids s e = .error (.InvalidFontRangeStart s)) ∧
    (s ≤ e → s % 256 = 0 → e % 256 ≠ 255 →
      get_font_range fonts ids s e = .error (.InvalidFontRangeEnd e)) ∧
    (s ≤ e → s % 256 = 0 → e % 256 = 255 → e - s ≠ 255 →
      get_font_range fonts ids s e = .error (.InvalidFontRange s e)) ∧
    (∀ r, get_font_range fonts ids s e = .ok r →
      s ≤ e ∧ s % 256 = 0 ∧ e % 256 = 255 ∧ e - s = 255) := by
  refine ⟨?_, ?_, ?_, ?_, ?_⟩
  · intro h
    simp [get_font_range, h]
  · intro h1 h2
    simp [get_font_range, h1, h2, Nat.not_lt.2 h1]
  · intro h1 h2 h3
    simp [get_font_range, h1, h2, h3, Nat.not_lt.2 h1]
  · intro h1 h2 h3 h4
    simp [get_font_range, h1, h2, h3, h4, Nat.not_lt.2 h1]
  · intro r hr
    have hc1 : ¬ s > e := by
      intro h
      simp [get_font_range, h] at hr
    have hc2 : s % 256 = 0 := by
      by_contra h
      simp [get_font_range, hc1, h] at hr
    have hc3 : e % 256 = 255 := by
      by_contra h
      simp [get_font_range, hc1, hc2, h] at hr
    have hc4 : e - s = 255 := by
      by_contra h
      simp [get_font_range, hc1, hc2, hc3, h] at hr
    exact ⟨by omega, hc2, hc3, hc4⟩

/-- C1: for a request over a valid 256-codepoint range `R = [256k, 256k+255]`
with every id registered, `get_font_range` succeeds; the set of codepoints
for which SDF glyphs are rendered equals `R ∩ (cov(A) ∪ … ∪ cov(N))`; no
codepoint is rendered twice; and each rendered codepoint is attributed to
the first font in the id list whose coverage contains it. -/
theorem get_font_range_first_covering (fonts : String → Option (List Nat))
    (ids : List String) (k : Nat) (hk : k < 256)
    (hreg : ∀ id ∈ ids, (fonts id).isSome) :
    ∃ r, get_font_range fonts ids (256 * k) (256 * k + 255) = .ok r ∧
      (∀ cp, (∃ id, (id, cp) ∈ renderedGlyphs r) ↔
        (256 * k ≤ cp ∧ cp < 256 * k + 256 ∧
          ∃ id ∈ ids, ∃ cov, fonts id = some cov ∧ cp ∈ cov)) ∧
      ((renderedGlyphs r).map Prod.snd).Nodup ∧
      (∀ id cp, (id, cp) ∈ renderedGlyphs r → firstCovering fonts ids cp = some id) := by
  have hdiv : 256 * k / 256 = k := by omega
  have hmask : masks.getD (256 * k / 256) [] = List.range' (256 * k) 256 := by
    rw [hdiv]
    exact masks_getD k hk
  obtain ⟨l, hres, h1, h2, h3, h4, h5⟩ :=
    resolveFonts_spec fonts ids (List.range' (256 * k) 256) hreg (List.nodup_range' _ _)
  have hunfold : get_font_range fonts ids (256 * k) (256 * k + 255) =
      (if l.isEmpty then .ok .empty
       else .ok (.stack {
         name := l.foldl (fun acc x =>
           match acc with
           | none => some x.1
           | some n => some (n ++ ", " ++ x.1)) none
         glyphs := l.flatMap (fun x => x.2.map (fun cp => (x.1, cp)))
         range := numStr (256 * k) ++ "-" ++ numStr (256 * k + 255) })) := by
    simp only [get_font_range,
      if_neg (by omega : ¬ 256 * k > 256 * k + 255),
      if_neg (by simp : ¬ 256 * k % 256 ≠ 0),
      if_neg (by omega : ¬ (256 * k + 255) % 256 ≠ 255),
      if_neg (by omega : ¬ (256 * k + 255) - 256 * k ≠ 255)]
    rw [hmask, hres]
  have hmemIff : ∀ cp, cp ∈ List.range' (256 * k) 256 ↔
      256 * k ≤ cp ∧ cp < 256 * k + 256 := fun cp => List.mem_range'_1
  by_cases hl : l.isEmpty
  · rw [List.isEmpty_iff] at hl
    subst hl
    refine ⟨.empty, by simpa using hunfold, ?_, by simp [renderedGlyphs], by simp [renderedGlyphs]⟩
    intro cp
    simp only [renderedGlyphs, List.not_mem_nil, exists_const, false_iff]
    rintro ⟨hb1, hb2, id, hid, cov, hcov, hcp⟩
    have : ∃ e ∈ ([] : List (String × List Nat)), cp ∈ e.2 :=
      (h2 cp).2 ⟨(hmemIff cp).2 ⟨hb1, hb2⟩, id, hid, cov, hcov, hcp⟩
    simp at this
  · refine ⟨_, by rw [hunfold, if_neg hl], ?_, ?_, ?_⟩
    · intro cp
      simp only [renderedGlyphs]
      constructor
      · rintro ⟨id, hid⟩
        rw [List.mem_flatMap] at hid
        obtain ⟨e, he, hm⟩ := hid
        rw [List.mem_map] at hm
        obtain ⟨c, hc, hcc⟩ := hm
        have hcp : cp ∈ e.2 := by
          cases hcc
          exact hc
        have := (h2 cp).1 ⟨e, he, hcp⟩
        obtain ⟨hcpn, i, hi, cov, hcov, hcpc⟩ := this
        have hb := (hmemIff cp).1 hcpn
        exact ⟨hb.1, hb.2, i, hi, cov, hcov, hcpc⟩
      · rintro ⟨hb1, hb2, i, hi, cov, hcov, hcpc⟩
        have : ∃ e ∈ l, cp ∈ e.2 :=
          (h2 cp).2 ⟨(hmemIff cp).2 ⟨hb1, hb2⟩, i, hi, cov, hcov, hcpc⟩
        obtain ⟨e, he, hcp⟩ := this
        refine ⟨e.1, ?_⟩
        rw [List.mem_flatMap]
        exact ⟨e, he, by rw [List.mem_map]; exact ⟨cp, hcp, rfl⟩⟩
    · simp only [renderedGlyphs]
      rw [map_snd_flatMap l]
      exact nodup_flatMap_disjoint l (fun e he => (h5 e he).2) h4
    · intro id cp hm
      simp only [renderedGlyphs] at hm
      rw [List.mem_flatMap] at hm
      obtain ⟨e, he, hmm⟩ := hm
      rw [List.mem_map] at hmm
      obtain ⟨c, hc, hcc⟩ := hmm
      have h1' : e.1 = id := congrArg Prod.fst hcc
      have h2' : c = cp := congrArg Prod.snd hcc
      subst h1' h2'
      exact h3 e he c hc

/-! ### Stable-sort machinery for the negotiation claims -/

theorem mem_insertLe {α : Type} (le : α → α → Bool) (x a : α) :
    ∀ l, a ∈ insertLe le x l ↔ a = x ∨ a ∈ l := by
  intro l
  induction l with
  | nil => simp [insertLe]
  | cons y t ih =>
    simp only [insertLe]
    split
    · simp [List.mem_cons]
    · simp only [List.mem_cons, ih]
      tauto

theorem insertLe_all {α : Type} (le : α → α → Bool) (x : α) :
    ∀ l, (∀ z ∈ l, le x z = true) → insertLe le x l = x :: l := by
  intro l
  induction l with
  | nil => simp [insertLe]
  | cons y t _ =>
    intro h
    simp only [insertLe]
    rw [if_pos (h y (by simp))]

theorem pairwise_insertLe {α : Type} (le : α → α → Bool)
    (total : ∀ a b, le a b = true ∨ le b a = true)
    (trans : ∀ a b c, le a b = true → le b c = true → le a c = true) (x : α) :
    ∀ l, l.Pairwise (fun a b => le a b = true) →
      (insertLe le x l).Pairwise (fun a b => le a b = true) := by
  intro l
  induction l with
  | nil =>
    intro _
    simp [insertLe]
  | cons y t ih =>
    intro h
    simp only [insertLe]
    split
    · refine List.Pairwise.cons ?_ h
      intro z hz
      rcases List.mem_cons.1 hz with rfl | hz'
      · assumption
      · exact trans x y z (by assumption) (List.rel_of_pairwise_cons h hz')
    · refine List.Pairwise.cons ?_ (ih h.of_cons)
      intro z hz
      rcases (mem_insertLe le x z t).1 hz with rfl | hz'
      · rcases total z y with h' | h'
        · exact absurd h' (by assumption)
        · exact h'
      · exact List.rel_of_pairwise_cons h hz'

theorem pairwise_insSort {α : Type} (le : α → α → Bool)
    (total : ∀ a b, le a b = true ∨ le b a = true)
    (trans : ∀ a b c, le a b = true → le b c = true → le a c = true) :
    ∀ l : List α, (insSort le l).Pairwise (fun a b => le a b = true) := by
  intro l
  induction l with
  | nil => simp [insSort]
  | cons x t ih => exact pairwise_insertLe le total trans x _ ih

theorem filter_insertLe {α : Type} (le : α → α → Bool)
    (trans : ∀ a b c, le a b = true → le b c = true → le a c = true)
    (p : α → Bool) (x : α) :
    ∀ l, l.Pairwise (fun a b => le a b = true) →
      (insertLe le x l).filter p =
        if p x then insertLe le x (l.filter p) else l.filter p := by
  intro l
  induction l with
  | nil =>
    intro _
    simp only [insertLe, List.filter_nil]
    by_cases hp : p x
    · rw [if_pos hp]
      simp [List.filter_cons, hp, insertLe]
    · rw [if_neg hp]
      simp [List.filter_cons, hp]
  | cons y t ih =>
    intro hs
    simp only [insertLe]
    by_cases hxy : le x y = true
    · rw [if_pos hxy]
      have hall : ∀ z ∈ (y :: t).filter p, le x z = true := by
        intro z hz
        rcases List.mem_cons.1 (List.mem_of_mem_filter hz) with rfl | hz'
        · exact hxy
        · exact trans x y z hxy (List.rel_of_pairwise_cons hs hz')
      by_cases hp : p x
      · rw [if_pos hp, insertLe_all le x _ hall, List.filter_cons_of_pos hp]
      · rw [if_neg hp, List.filter_cons_of_neg (by simpa using hp)]
    · rw [if_neg hxy]
      by_cases hpy : p y
      · rw [List.filter_cons_of_pos hpy, List.filter_cons_of_pos hpy,
          ih hs.of_cons]
        by_cases hp : p x
        · rw [if_pos hp, if_pos hp]
          simp only [insertLe]
          rw [if_neg hxy]
        · rw [if_neg hp, if_neg hp]
      · rw [List.filter_cons_of_neg (by simpa using hpy),
          List.filter_cons_of_neg (by simpa using hpy), ih hs.of_cons]

theorem filter_insSort {α : Type} (le : α → α → Bool)
    (total : ∀ a b, le a b = true ∨ le b a = true)
    (trans : ∀ a b c, le a b = true → le b c = true → le a c = true)
    (p : α → Bool) :
    ∀ l : List α, (insSort le l).filter p = insSort le (l.filter p) := by
  intro l
  induction l with
  | nil => simp [insSort]
  | cons x t ih =>
    simp only [insSort]
    rw [filter_insertLe le trans p x _ (pairwise_insSort le total trans t), ih]
    by_cases hp : p x
    · rw [if_pos hp]
      simp [List.filter, hp, insSort]
    · rw [if_neg hp]
      simp [List.filter, hp]

theorem mem_insSort {α : Type} (le : α → α → Bool) (a : α) :
    ∀ l, a ∈ insSort le l ↔ a ∈ l := by
  intro l
  induction l with
  | nil => simp [insSort]
  | cons x t ih =>
    simp only [insSort, mem_insertLe, ih, List.mem_cons]

theorem insertLe_congr {α : Type} (le₁ le₂ : α → α → Bool) (x : α) :
    ∀ l, (∀ b ∈ l, le₁ x b = le₂ x b) → insertLe le₁ x l = insertLe le₂ x l := by
  intro l
  induction l with
  | nil => intro _; rfl
  | cons y t ih =>
    intro h
    simp only [insertLe]
    rw [h y (by simp)]
    by_cases h2 : le₂ x y = true
    · rw [if_pos h2, if_pos h2]
    · rw [if_neg h2, if_neg h2, ih (fun b hb => h b (by simp [hb]))]

theorem insSort_congr {α : Type} (le₁ le₂ : α → α → Bool) :
    ∀ l : List α, (∀ a ∈ l, ∀ b ∈ l, le₁ a b = le₂ a b) →
      insSort le₁ l = insSort le₂ l := by
  intro l
  induction l with
  | nil => intro _; rfl
  | cons x t ih =>
    intro h
    simp only [insSort]
    rw [ih (fun a ha b hb => h a (by simp [ha]) b (by simp [hb]))]
    refine insertLe_congr le₁ le₂ x _ ?_
    intro b hb
    have hbt : b ∈ t := (mem_insSort le₂ b t).1 hb
    exact h x (by simp) b (by simp [hbt])

theorem find?_filter_comm {α : Type} (p q : α → Bool) :
    ∀ l : List α, (l.filter p).find? q = l.find? (fun a => p a && q a) := by
  intro l
  induction l with
  | nil => rfl
  | cons a t ih =>
    by_cases hp : p a
    · rw [List.filter_cons_of_pos hp]
      by_cases hq : q a
      · simp [List.find?_cons, hp, hq]
      · simp [List.find?_cons, hp, hq, ih]
    · rw [List.filter_cons_of_neg (by simpa using hp)]
      have hpq : (p a && q a) = false := by simp [hp]
      simp [List.find?_cons, hpq, ih]

theorem find?_through_filter {α : Type} (r q : α → Bool)
    (h : ∀ a, r a = true → q a = true) :
    ∀ l : List α, l.find? r = (l.filter q).find? r := by
  intro l
  induction l with
  | nil => rfl
  | cons a t ih =>
    by_cases hq : q a
    · rw [List.filter_cons_of_pos hq]
      by_cases hr : r a
      · simp [List.find?_cons, hr]
      · simp [List.find?_cons, hr, ih]
    · have hr : r a = false := by
        cases hra : r a
        · rfl
        · exact absurd (h a hra) (by simpa using hq)
      rw [List.filter_cons_of_neg (by simpa using hq)]
      simp [List.find?_cons, hr, ih]

/-- Shared shape of the two sort comparators. -/
theorem qLe_total (f : QualityItem → Nat) (a b : QualityItem) :
    (decide (b.quality < a.quality) ||
      (decide (b.quality = a.quality) && decide (f b ≤ f a))) = true ∨
    (decide (a.quality < b.quality) ||
      (decide (a.quality = b.quality) && decide (f a ≤ f b))) = true := by
  simp only [Bool.or_eq_true, Bool.and_eq_true, decide_eq_true_eq]
  omega

theorem qLe_trans (f : QualityItem → Nat) (a b c : QualityItem) :
    (decide (b.quality < a.quality) ||
      (decide (b.quality = a.quality) && decide (f b ≤ f a))) = true →
    (decide (c.quality < b.quality) ||
      (decide (c.quality = b.quality) && decide (f c ≤ f b))) = true →
    (decide (c.quality < a.quality) ||
      (decide (c.quality = a.quality) && decide (f c ≤ f a))) = true := by
  simp only [Bool.or_eq_true, Bool.and_eq_true, decide_eq_true_eq]
  omega

theorem rank_le_total (prefer : PreferredEncoding) (a b : QualityItem) :
    rank_le prefer a b = true ∨ rank_le prefer b a = true :=
  qLe_total (fun q => encoding_rank q prefer) a b

theorem rank_le_trans (prefer : PreferredEncoding) (a b c : QualityItem) :
    rank_le prefer a b = true → rank_le prefer b c = true →
    rank_le prefer a c = true :=
  qLe_trans (fun q => encoding_rank q prefer) a b c

theorem rank_le_spec_total (prefer : PreferredEncoding) (a b : QualityItem) :
    rank_le_spec prefer a b = true ∨ rank_le_spec prefer b a = true :=
  qLe_total (fun q => encoding_rank_spec q prefer) a b

theorem rank_le_spec_trans (prefer : PreferredEncoding) (a b c : QualityItem) :
    rank_le_spec prefer a b = true → rank_le_spec prefer b c = true →
    rank_le_spec prefer a c = true :=
  qLe_trans (fun q => encoding_rank_spec q prefer) a b c

/-- For entries with positive quality the code's rank equals the spec's
rank table. -/
theorem encoding_rank_eq_spec (q : QualityItem) (prefer : PreferredEncoding)
    (h : 0 < q.quality) : encoding_rank q prefer = encoding_rank_spec q prefer := by
  unfold encoding_rank encoding_rank_spec
  rw [if_neg (by omega : ¬ q.quality = 0)]

theorem rank_le_eq_spec (prefer : PreferredEncoding) (a b : QualityItem)
    (ha : 0 < a.quality) (hb : 0 < b.quality) :
    rank_le prefer a b = rank_le_spec prefer a b := by
  rw [rank_le, rank_le_spec, encoding_rank_eq_spec a prefer ha,
    encoding_rank_eq_spec b prefer hb]

/-! ### Substring-counting machinery for the SQL-shape claim -/

theorem begins_length : ∀ (p s : List Char), begins p s = true → p.length ≤ s.length := by
  intro p
  induction p with
  | nil =>
    intro s _
    simp
  | cons a p ih =>
    intro s h
    cases s with
    | nil => exact absurd h (by simp [begins])
    | cons b t =>
      simp only [begins, Bool.and_eq_true] at h
      have := ih t h.2
      simp only [List.length_cons]
      omega

theorem begins_subset : ∀ (p s : List Char), begins p s = true → ∀ c ∈ p, c ∈ s := by
  intro p
  induction p with
  | nil =>
    intro s _ c hc
    exact absurd hc (List.not_mem_nil c)
  | cons a p ih =>
    intro s h c hc
    cases s with
    | nil => exact absurd h (by simp [begins])
    | cons b t =>
      simp only [begins, Bool.and_eq_true, decide_eq_true_eq] at h
      rcases List.mem_cons.1 hc with rfl | hc'
      · rw [h.1]
        simp
      · exact List.mem_cons.2 (Or.inr (ih t h.2 c hc'))

theorem begins_append_left : ∀ (p x y : List Char), p.length ≤ x.length →
    begins p (x ++ y) = begins p x := by
  intro p
  induction p with
  | nil =>
    intro x y _
    rfl
  | cons a p ih =>
    intro x y h
    cases x with
    | nil => simp at h
    | cons b t =>
      simp only [List.cons_append, begins, List.append_eq]
      rw [ih t y (by simpa using h)]

theorem begins_flip : ∀ (x p y : List Char), x.length < p.length →
    begins p (x ++ y) = true → begins x p = true := by
  intro x
  induction x with
  | nil =>
    intro p y _ _
    rfl
  | cons b t ih =>
    intro p y hl h
    cases p with
    | nil => simp at hl
    | cons a q =>
      simp only [List.cons_append, begins, Bool.and_eq_true, decide_eq_true_eq] at h ⊢
      exact ⟨h.1.symm, ih q y (by simpa using hl) h.2⟩

theorem noStraddleB_spec (p x : List Char) : noStraddleB p x = true ↔
    ∀ s, s <:+ x → s ≠ [] → s.length < p.length → begins s p = false := by
  simp only [noStraddleB, List.all_eq_true, List.mem_tails, Bool.or_eq_true,
    List.isEmpty_iff, decide_eq_true_eq, Bool.not_eq_true']
  constructor
  · intro h s hs hne hlen
    rcases h s hs with (h1 | h1) | h1
    · exact absurd h1 hne
    · omega
    · exact h1
  · intro h s hs
    by_cases hne : s = []
    · exact Or.inl (Or.inl hne)
    by_cases hlen : p.length ≤ s.length
    · exact Or.inl (Or.inr hlen)
    · exact Or.inr (h s hs hne (by omega))

theorem countOcc_append_split (p : List Char) (hp : p ≠ []) :
    ∀ (x y : List Char),
      (∀ s, s <:+ x → s ≠ [] → s.length < p.length → begins s p = false) →
      countOcc p (x ++ y) = countOcc p x + countOcc p y := by
  intro x
  induction x with
  | nil =>
    intro y _
    simp [countOcc]
  | cons a t ih =>
    intro y hns
    have hsub : ∀ s, s <:+ t → s ≠ [] → s.length < p.length → begins s p = false :=
      fun s hs => hns s (hs.trans (List.suffix_cons a t))
    have hhead : begins p (a :: (t ++ y)) = begins p (a :: t) := by
      by_cases hl : p.length ≤ (a :: t).length
      · have := begins_append_left p (a :: t) y hl
        simpa using this
      · push_neg at hl
        have h1 : begins p (a :: t) = false := by
          cases hb : begins p (a :: t) with
          | false => rfl
          | true =>
            have := begins_length p (a :: t) hb
            omega
        have h2 : begins p (a :: (t ++ y)) = false := by
          cases hb : begins p (a :: (t ++ y)) with
          | false => rfl
          | true =>
            have hflip : begins (a :: t) p = true := by
              refine begins_flip (a :: t) p y (by omega) ?_
              simpa using hb
            have hcontra := hns (a :: t) (List.suffix_refl _) (by simp) (by omega)
            rw [hflip] at hcontra
            cases hcontra
        rw [h1, h2]
    simp only [List.cons_append, countOcc, List.append_eq, hhead, ih y hsub]
    omega

theorem countOcc_zero_of_missing (p : List Char) (d : Char) (hd : d ∈ p) :
    ∀ x, d ∉ x → countOcc p x = 0 := by
  intro x
  induction x with
  | nil =>
    intro _
    rfl
  | cons a t ih =>
    intro hdx
    have hb : begins p (a :: t) = false := by
      cases hbb : begins p (a :: t) with
      | false => rfl
      | true => exact absurd (begins_subset p (a :: t) hbb d hd) hdx
    simp only [countOcc, hb, if_false]
    have : d ∉ t := fun h => hdx (List.mem_cons.2 (Or.inr h))
    simp [ih this]

/-- Skip a piece that lacks the pattern's first character. -/
theorem countOcc_skip_head (c : Char) (p' : List Char) (x y : List Char)
    (hc : c ∉ x) :
    countOcc (c :: p') (x ++ y) = countOcc (c :: p') y := by
  have hns : ∀ s, s <:+ x → s ≠ [] → s.length < (c :: p').length →
      begins s (c :: p') = false := by
    intro s hs hne _
    cases s with
    | nil => exact absurd rfl hne
    | cons e s' =>
      have he : e ∈ x := hs.subset (by simp)
      cases hb : begins (e :: s') (c :: p') with
      | false => rfl
      | true =>
        simp only [begins, Bool.and_eq_true, decide_eq_true_eq] at hb
        exact absurd (hb.1 ▸ he) hc
  rw [countOcc_append_split (c :: p') (by simp) x y hns,
    countOcc_zero_of_missing (c :: p') c (by simp) x hc, Nat.zero_add]

/-- Skip a piece that ends in a character foreign to the pattern and also
misses some character of the pattern. -/
theorem countOcc_skip_tagged (p x y : List Char) (hp : p ≠ [])
    (z : Char) (hzp : z ∉ p) (hlast : ∃ t, x = t ++ [z])
    (d : Char) (hd : d ∈ p) (hdx : d ∉ x) :
    countOcc p (x ++ y) = countOcc p y := by
  have hns : ∀ s, s <:+ x → s ≠ [] → s.length < p.length →
      begins s p = false := by
    intro s hs hne _
    obtain ⟨t, ht⟩ := hlast
    have hz : z ∈ s := by
      obtain ⟨w, hw⟩ := hs
      have h1 : (w ++ s).getLast? = s.getLast? := by
        rw [List.getLast?_append]
        cases hsl : s.getLast? with
        | none =>
          rw [List.getLast?_eq_none_iff] at hsl
          exact absurd hsl hne
        | some v => rfl
      rw [hw, ht, List.getLast?_concat] at h1
      exact List.mem_of_mem_getLast? h1.symm
    cases hb : begins s p with
    | false => rfl
    | true => exact absurd (begins_subset s p hb z hz) hzp
  rw [countOcc_append_split p hp x y hns,
    countOcc_zero_of_missing p d hd x hdx, Nat.zero_add]

/-- Step over a concrete template piece with a decidable straddle-check. -/
theorem countOcc_step_concrete (p : List Char) (x : String) (y : List Char)
    (k : Nat) (hp : p ≠ []) (h : noStraddleB p x.data = true)
    (hk : countOcc p x.data = k) :
    countOcc p (x.data ++ y) = k + countOcc p y := by
  rw [countOcc_append_split p hp x.data y ((noStraddleB_spec p x.data).1 h), hk]

theorem trimChars_wrap (s : List Char) (h1 : ∃ t, s = 'S' :: t)
    (h2 : ∃ t, s = t ++ [';']) :
    trimChars ('\n' :: (s ++ ['\n'])) = s := by
  have hd : List.dropWhile isRustWs (s ++ ['\n']) = s ++ ['\n'] := by
    obtain ⟨t1, rfl⟩ := h1
    rw [List.cons_append, List.dropWhile_cons, if_neg (by decide)]
  have hds : List.dropWhile isRustWs s.reverse = s.reverse := by
    obtain ⟨t2, rfl⟩ := h2
    rw [List.reverse_append,
      show ([';'] : List Char).reverse ++ t2.reverse = ';' :: t2.reverse from rfl,
      List.dropWhile_cons, if_neg (by decide)]
  unfold trimChars
  rw [List.dropWhile_cons, if_pos (by decide), hd, List.reverse_append,
    show (['\n'] : List Char).reverse ++ s.reverse = '\n' :: s.reverse from rfl,
    List.dropWhile_cons, if_pos (by decide), hds, List.reverse_reverse]

theorem starts_appendL (c : Char) (x y : List Char) (h : ∃ t, x = c :: t) :
    ∃ t, x ++ y = c :: t := by
  obtain ⟨t, rfl⟩ := h
  exact ⟨t ++ y, rfl⟩

theorem ends_appendR (z : Char) (x y : List Char) (h : ∃ t, y = t ++ [z]) :
    ∃ t, x ++ y = t ++ [z] := by
  obtain ⟨t, rfl⟩ := h
  exact ⟨x ++ t, by rw [List.append_assoc]⟩

theorem idOk_not_mem (s : String) (hs : idOk s) (d : Char)
    (h2 : d.isAlphanum = false) (h3 : d ≠ '_') : d ∉ s.data := by
  intro hmem
  rcases hs d hmem with h | h
  · rw [h2] at h
    cases h
  · exact h3 h

theorem mem_escape_identifier (s : String) (c : Char)
    (h : c ∈ (escape_identifier s).data) : c = '"' ∨ c ∈ s.data := by
  have hd : (escape_identifier s).data =
      ('"' :: s.data.flatMap (fun ch => if ch = '"' then ['"', '"'] else [ch])) ++ ['"'] := rfl
  rw [hd] at h
  rcases List.mem_append.1 h with h | h
  · rcases List.mem_cons.1 h with rfl | h
    · exact Or.inl rfl
    · rw [List.mem_flatMap] at h
      obtain ⟨a, ha, hc⟩ := h
      by_cases ha2 : a = '"'
      · rw [if_pos ha2] at hc
        rcases List.mem_cons.1 hc with rfl | hc
        · exact Or.inl rfl
        · simp only [List.mem_singleton] at hc
          exact Or.inl hc
      · rw [if_neg ha2] at hc
        simp only [List.mem_singleton] at hc
        subst hc
        exact Or.inr ha
  · simp only [List.mem_singleton] at h
    exact Or.inl h

theorem last_escape_identifier (s : String) :
    ∃ t, (escape_identifier s).data = t ++ ['"'] :=
  ⟨'"' :: s.data.flatMap (fun ch => if ch = '"' then ['"', '"'] else [ch]), rfl⟩

theorem mem_escape_literal (s : String) (c : Char)
    (h : c ∈ (escape_literal s).data) : c = sqChar ∨ c ∈ s.data := by
  have hd : (escape_literal s).data =
      (sqChar :: s.data.flatMap (fun ch => if ch = sqChar then [sqChar, sqChar] else [ch])) ++
        [sqChar] := rfl
  rw [hd] at h
  rcases List.mem_append.1 h with h | h
  · rcases List.mem_cons.1 h with rfl | h
    · exact Or.inl rfl
    · rw [List.mem_flatMap] at h
      obtain ⟨a, ha, hc⟩ := h
      by_cases ha2 : a = sqChar
      · rw [if_pos ha2] at hc
        rcases List.mem_cons.1 hc with rfl | hc
        · exact Or.inl rfl
        · simp only [List.mem_singleton] at hc
          exact Or.inl hc
      · rw [if_neg ha2] at hc
        simp only [List.mem_singleton] at hc
        subst hc
        exact Or.inr ha
  · simp only [List.mem_singleton] at h
    exact Or.inl h

theorem last_escape_literal (s : String) :
    ∃ t, (escape_literal s).data = t ++ [sqChar] :=
  ⟨sqChar :: s.data.flatMap (fun ch => if ch = sqChar then [sqChar, sqChar] else [ch]), rfl⟩

theorem mem_escape_with_alias (mapping : String → Option String) (field : String)
    (c : Char) (h : c ∈ (escape_with_alias mapping field).data) :
    c = ',' ∨ c = ' ' ∨ c = 'A' ∨ c = 'S' ∨ c = '"' ∨
      c ∈ field.data ∨ c ∈ ((mapping field).getD field).data := by
  have hzeta : escape_with_alias mapping field =
      if field = (mapping field).getD field then
        ", " ++ escape_identifier ((mapping field).getD field)
      else ", " ++ escape_identifier ((mapping field).getD field) ++ " AS " ++
        escape_identifier field := rfl
  rw [hzeta] at h
  split at h
  · have hd : ((", " : String) ++ escape_identifier ((mapping field).getD field)).data =
        ',' :: ' ' :: (escape_identifier ((mapping field).getD field)).data := rfl
    rw [hd] at h
    rcases List.mem_cons.1 h with rfl | h
    · exact Or.inl rfl
    rcases List.mem_cons.1 h with rfl | h
    · exact Or.inr (Or.inl rfl)
    rcases mem_escape_identifier _ c h with h | h
    · exact Or.inr (Or.inr (Or.inr (Or.inr (Or.inl h))))
    · exact Or.inr (Or.inr (Or.inr (Or.inr (Or.inr (Or.inr h)))))
  · have hd : ((", " : String) ++ escape_identifier ((mapping field).getD field) ++
        " AS " ++ escape_identifier field).data =
        ',' :: ' ' :: ((escape_identifier ((mapping field).getD field)).data ++
          (' ' :: 'A' :: 'S' :: ' ' :: (escape_identifier field).data)) := by
      simp only [String.data_append, List.append_assoc]
      rfl
    rw [hd] at h
    rcases List.mem_cons.1 h with rfl | h
    · exact Or.inl rfl
    rcases List.mem_cons.1 h with rfl | h
    · exact Or.inr (Or.inl rfl)
    rcases List.mem_append.1 h with h | h
    · rcases mem_escape_identifier _ c h with h | h
      · exact Or.inr (Or.inr (Or.inr (Or.inr (Or.inl h))))
      · exact Or.inr (Or.inr (Or.inr (Or.inr (Or.inr (Or.inr h)))))
    · rcases List.mem_cons.1 h with rfl | h
      · exact Or.inr (Or.inl rfl)
      rcases List.mem_cons.1 h with rfl | h
      · exact Or.inr (Or.inr (Or.inl rfl))
      rcases List.mem_cons.1 h with rfl | h
      · exact Or.inr (Or.inr (Or.inr (Or.inl rfl)))
      rcases List.mem_cons.1 h with rfl | h
      · exact Or.inr (Or.inl rfl)
      rcases mem_escape_identifier _ c h with h | h
      · exact Or.inr (Or.inr (Or.inr (Or.inr (Or.inl h))))
      · exact Or.inr (Or.inr (Or.inr (Or.inr (Or.inr (Or.inl h)))))

theorem last_escape_with_alias (mapping : String → Option String) (field : String) :
    ∃ t, (escape_with_alias mapping field).data = t ++ ['"'] := by
  have hzeta : escape_with_alias mapping field =
      if field = (mapping field).getD field then
        ", " ++ escape_identifier ((mapping field).getD field)
      else ", " ++ escape_identifier ((mapping field).getD field) ++ " AS " ++
        escape_identifier field := rfl
  rw [hzeta]
  split
  · have hd : ((", " : String) ++ escape_identifier ((mapping field).getD field)).data =
        (',' :: ' ' :: []) ++ (escape_identifier ((mapping field).getD field)).data := rfl
    rw [hd]
    exact ends_appendR '"' _ _ (last_escape_identifier _)
  · rw [String.data_append ((", " : String) ++ escape_identifier ((mapping field).getD field) ++
        " AS ") (escape_identifier field)]
    exact ends_appendR '"' _ _ (last_escape_identifier _)

theorem num_no (n : Nat) (d : Char)
    (hd : d ∉ (['0', '1', '2', '3', '4', '5', '6', '7', '8', '9'] : List Char)) :
    d ∉ (numStr n).data := fun h => hd (numChars_mem n d h)

theorem eident_no (s : String) (hs : idOk s) (d : Char) (h1 : d ≠ '"')
    (h2 : d.isAlphanum = false) (h3 : d ≠ '_') :
    d ∉ (escape_identifier s).data := by
  intro hmem
  rcases mem_escape_identifier s d hmem with h | h
  · exact h1 h
  · exact idOk_not_mem s hs d h2 h3 h

theorem eliteral_no (s : String) (hs : idOk s) (d : Char) (h1 : d ≠ sqChar)
    (h2 : d.isAlphanum = false) (h3 : d ≠ '_') :
    d ∉ (escape_literal s).data := by
  intro hmem
  rcases mem_escape_literal s d hmem with h | h
  · exact h1 h
  · exact idOk_not_mem s hs d h2 h3 h

theorem ewa_no (mapping : String → Option String) (field : String)
    (hf : idOk field) (hm : idOk ((mapping field).getD field)) (d : Char)
    (h1 : d ≠ ',') (h2 : d ≠ ' ') (h3 : d ≠ 'A') (h4 : d ≠ 'S') (h5 : d ≠ '"')
    (h6 : d.isAlphanum = false) (h7 : d ≠ '_') :
    d ∉ (escape_with_alias mapping field).data := by
  intro hmem
  rcases mem_escape_with_alias mapping field d hmem with h | h | h | h | h | h | h
  · exact h1 h
  · exact h2 h
  · exact h3 h
  · exact h4 h
  · exact h5 h
  · exact idOk_not_mem field hf d h6 h7 h
  · exact idOk_not_mem _ hm d h6 h7 h

theorem bool_no (b : Bool) (d : Char)
    (hd : d ∉ (['t', 'r', 'u', 'e', 'f', 'a', 'l', 's'] : List Char)) :
    d ∉ (boolStr b).data := by
  cases b <;> intro hmem
  · have hx : (boolStr false).data = ['f', 'a', 'l', 's', 'e'] := rfl
    rw [hx] at hmem
    fin_cases hmem <;> simp_all
  · have hx : (boolStr true).data = ['t', 'r', 'u', 'e'] := rfl
    rw [hx] at hmem
    fin_cases hmem <;> simp_all

theorem int_no (i : Int) (d : Char) (h1 : d ≠ '-')
    (hd : d ∉ (['0', '1', '2', '3', '4', '5', '6', '7', '8', '9'] : List Char)) :
    d ∉ (intStr i).data := by
  intro hmem
  unfold intStr at hmem
  split at hmem
  · have hx : (("-" : String) ++ numStr i.natAbs).data = '-' :: (numStr i.natAbs).data := rfl
    rw [hx] at hmem
    rcases List.mem_cons.1 hmem with rfl | hmem
    · exact h1 rfl
    · exact num_no _ d hd hmem
  · exact num_no _ d hd hmem

theorem margin_no (b e : Nat) (d : Char) (h1 : d ≠ '/')
    (hd : d ∉ (['0', '1', '2', '3', '4', '5', '6', '7', '8', '9'] : List Char)) :
    d ∉ (marginStr b e).data := by
  intro hmem
  have hx : (marginStr b e).data =
      (numStr b).data ++ ('/' :: (numStr e).data) := by
    simp only [marginStr, String.data_append, List.append_assoc]
    rfl
  rw [hx] at hmem
  rcases List.mem_append.1 hmem with h | h
  · exact num_no _ d hd h
  · rcases List.mem_cons.1 h with rfl | h
    · exact h1 rfl
    · exact num_no _ d hd h

theorem limit_no (mfc : Option Nat) (d : Char)
    (h1 : d ∉ (['L', 'I', 'M', 'T', ' '] : List Char))
    (hd : d ∉ (['0', '1', '2', '3', '4', '5', '6', '7', '8', '9'] : List Char)) :
    d ∉ (limitStr mfc).data := by
  intro hmem
  cases mfc with
  | none => exact absurd hmem (List.not_mem_nil d)
  | some v =>
    have hx : (limitStr (some v)).data =
        'L' :: 'I' :: 'M' :: 'I' :: 'T' :: ' ' :: (numStr v).data := rfl
    rw [hx] at hmem
    rcases List.mem_cons.1 hmem with rfl | hmem
    · exact h1 (by decide)
    rcases List.mem_cons.1 hmem with rfl | hmem
    · exact h1 (by decide)
    rcases List.mem_cons.1 hmem with rfl | hmem
    · exact h1 (by decide)
    rcases List.mem_cons.1 hmem with rfl | hmem
    · exact h1 (by decide)
    rcases List.mem_cons.1 hmem with rfl | hmem
    · exact h1 (by decide)
    rcases List.mem_cons.1 hmem with rfl | hmem
    · exact h1 (by decide)
    exact num_no _ d hd hmem

/-- Skip the `id_name` fragment (empty, or `, 'idcol'`). -/
theorem countOcc_skip_idname (P : List Char) (hP : P ≠ []) (info : TableInfo)
    (y : List Char) (hid : ∀ c, info.id_column = some c → idOk c)
    (hsq : sqChar ∉ P) (d : Char) (hd : d ∈ P) (hd1 : d ≠ ',') (hd2 : d ≠ ' ')
    (hd3 : d ≠ sqChar) (hd4 : d.isAlphanum = false) (hd5 : d ≠ '_') :
    countOcc P ((idPairStr info).1.data ++ y) = countOcc P y := by
  cases hic : info.id_column with
  | none =>
    have hx : idPairStr info = ("", "") := by
      unfold idPairStr
      rw [hic]
    rw [hx]
    rfl
  | some c =>
    have hx : idPairStr info =
        (", " ++ escape_literal c, escape_with_alias info.prop_mapping c) := by
      unfold idPairStr
      rw [hic]
    rw [hx]
    have hdata : ((", " : String) ++ escape_literal c).data =
        ',' :: ' ' :: (escape_literal c).data := rfl
    refine countOcc_skip_tagged P _ y hP sqChar hsq ?_ d hd ?_
    · obtain ⟨t, ht⟩ := last_escape_literal c
      refine ⟨',' :: ' ' :: t, ?_⟩
      rw [hdata, ht]
      rfl
    · intro hmem
      rw [hdata] at hmem
      rcases List.mem_cons.1 hmem with h | hmem
      · exact hd1 h
      rcases List.mem_cons.1 hmem with h | hmem
      · exact hd2 h
      exact eliteral_no c (hid c hic) d hd3 hd4 hd5 hmem

/-- Skip the `id_field` fragment (empty, or a `, "col" [AS "idcol"]`
fragment). -/
theorem countOcc_skip_idfield (P : List Char) (hP : P ≠ []) (info : TableInfo)
    (y : List Char)
    (hid : ∀ c, info.id_column = some c →
      idOk c ∧ idOk ((info.prop_mapping c).getD c))
    (hq : '"' ∉ P) (d : Char) (hd : d ∈ P) (hd1 : d ≠ ',') (hd2 : d ≠ ' ')
    (hd3 : d ≠ 'A') (hd4 : d ≠ 'S') (hd5 : d ≠ '"') (hd6 : d.isAlphanum = false)
    (hd7 : d ≠ '_') :
    countOcc P ((idPairStr info).2.data ++ y) = countOcc P y := by
  cases hic : info.id_column with
  | none =>
    have hx : idPairStr info = ("", "") := by
      unfold idPairStr
      rw [hic]
    rw [hx]
    rfl
  | some c =>
    have hx : idPairStr info =
        (", " ++ escape_literal c, escape_with_alias info.prop_mapping c) := by
      unfold idPairStr
      rw [hic]
    rw [hx]
    refine countOcc_skip_tagged P _ y hP '"' hq (last_escape_with_alias _ _) d hd ?_
    exact ewa_no info.prop_mapping c (hid c hic).1 (hid c hic).2 d
      hd1 hd2 hd3 hd4 hd5 hd6 hd7

theorem concatAll_data (l : List String) :
    (concatAll l).data = l.flatMap String.data := by
  suffices h : ∀ acc : String, (l.foldl (fun a b => a ++ b) acc).data =
      acc.data ++ l.flatMap String.data by
    have h0 := h ""
    simpa [concatAll] using h0
  induction l with
  | nil =>
    intro acc
    simp
  | cons s t ih =>
    intro acc
    simp only [List.foldl_cons, ih, String.data_append, List.flatMap_cons,
      List.append_assoc]

theorem props_flat_last (f : String → String)
    (hf : ∀ s, ∃ t, (f s).data = t ++ ['"']) :
    ∀ ks : List String, ks ≠ [] →
      ∃ t, (ks.map f).flatMap String.data = t ++ ['"'] := by
  intro ks
  induction ks with
  | nil =>
    intro h
    exact absurd rfl h
  | cons k t ih =>
    intro _
    cases ht : t with
    | nil =>
      simp only [List.map_cons, List.flatMap_cons, ht, List.map_nil,
        List.flatMap_nil, List.append_nil]
      exact hf k
    | cons a b =>
      rw [List.map_cons, List.flatMap_cons]
      exact ends_appendR '"' _ _ (by rw [← ht]; exact ih (by simp [ht]))

/-- Skip the `properties` fragment (empty, or a `"`-terminated run of
`, "col" [AS "prop"]` fragments). -/
theorem countOcc_skip_props (P : List Char) (hP : P ≠ []) (info : TableInfo)
    (y : List Char)
    (hprops : ∀ ks, info.properties = some ks →
      ∀ k ∈ ks, idOk k ∧ idOk ((info.prop_mapping k).getD k))
    (hq : '"' ∉ P) (d : Char) (hd : d ∈ P) (hd1 : d ≠ ',') (hd2 : d ≠ ' ')
    (hd3 : d ≠ 'A') (hd4 : d ≠ 'S') (hd5 : d ≠ '"') (hd6 : d.isAlphanum = false)
    (hd7 : d ≠ '_') :
    countOcc P ((propertiesStr info).data ++ y) = countOcc P y := by
  cases hip : info.properties with
  | none =>
    have hx : propertiesStr info = "" := by
      unfold propertiesStr
      rw [hip]
    rw [hx]
    rfl
  | some ks =>
    have hx : propertiesStr info =
        concatAll (ks.map (fun column => escape_with_alias info.prop_mapping column)) := by
      unfold propertiesStr
      rw [hip]
    rw [hx, concatAll_data]
    cases hks : ks with
    | nil => rfl
    | cons a b =>
      refine countOcc_skip_tagged P _ y hP '"' hq ?_ d hd ?_
      · exact props_flat_last _ (fun s => last_escape_with_alias info.prop_mapping s)
          (a :: b) (by simp)
      · intro hmem
        rw [List.mem_flatMap] at hmem
        obtain ⟨x, hx1, hx2⟩ := hmem
        rw [List.mem_map] at hx1
        obtain ⟨k, hk, rfl⟩ := hx1
        have hkk := hprops ks hip k (by rw [hks]; exact hk)
        exact ewa_no info.prop_mapping k hkk.1 hkk.2 d hd1 hd2 hd3 hd4 hd5 hd6 hd7 hx2

theorem countOcc_skip_eident (P : List Char) (hP : P ≠ []) (s : String)
    (hs : idOk s) (y : List Char) (hq : '"' ∉ P) (d : Char) (hd : d ∈ P)
    (h1 : d ≠ '"') (h6 : d.isAlphanum = false) (h7 : d ≠ '_') :
    countOcc P ((escape_identifier s).data ++ y) = countOcc P y :=
  countOcc_skip_tagged P _ y hP '"' hq (last_escape_identifier s) d hd
    (eident_no s hs d h1 h6 h7)

theorem countOcc_skip_eliteral (P : List Char) (hP : P ≠ []) (s : String)
    (hs : idOk s) (y : List Char) (hq : sqChar ∉ P) (d : Char) (hd : d ∈ P)
    (h1 : d ≠ sqChar) (h6 : d.isAlphanum = false) (h7 : d ≠ '_') :
    countOcc P ((escape_literal s).data ++ y) = countOcc P y :=
  countOcc_skip_tagged P _ y hP sqChar hq (last_escape_literal s) d hd
    (eliteral_no s hs d h1 h6 h7)

theorem countOcc_bbox_dollar (d : Char) (hd : d = '1' ∨ d = '2' ∨ d = '3')
    (buffer extent : Nat) (stm : Bool) (y : List Char) :
    countOcc ['$', d] ((bboxSearchStr buffer extent stm).data ++ y) =
      1 + countOcc ['$', d] y := by
  unfold bboxSearchStr
  split
  · rcases hd with rfl | rfl | rfl <;>
      exact countOcc_step_concrete _
        "ST_TileEnvelope($1::integer, $2::integer, $3::integer)" y 1
        (by simp) (by decide) (by decide)
  · split
    · simp only [String.data_append, List.append_assoc]
      rcases hd with rfl | rfl | rfl <;>
      · rw [countOcc_step_concrete _
          "ST_TileEnvelope($1::integer, $2::integer, $3::integer, margin => " _ 1
          (by simp) (by decide) (by decide)]
        rw [countOcc_skip_head '$' _ _ _
          (margin_no buffer extent '$' (by decide) (by decide))]
        rw [countOcc_step_concrete _ ")" _ 0 (by simp) (by decide) (by decide)]
        omega
    · rcases hd with rfl | rfl | rfl <;>
      · exact countOcc_step_concrete _
          "ST_TileEnvelope($1::integer, $2::integer, $3::integer)" y 1
          (by simp) (by decide) (by decide)

theorem countOcc_bbox_margin (buffer extent : Nat) (stm : Bool) (y : List Char) :
    countOcc ("margin =>" : String).data ((bboxSearchStr buffer extent stm).data ++ y) =
      (if buffer ≠ 0 ∧ stm = true then 1 else 0) +
        countOcc ("margin =>" : String).data y := by
  unfold bboxSearchStr
  split
  · next hb =>
    rw [if_neg (by simp [hb])]
    exact countOcc_step_concrete _
      "ST_TileEnvelope($1::integer, $2::integer, $3::integer)" y 0
      (by decide) (by decide) (by decide)
  · next hb =>
    split
    · next hs =>
      rw [if_pos ⟨hb, hs⟩]
      simp only [String.data_append, List.append_assoc]
      rw [countOcc_step_concrete _
        "ST_TileEnvelope($1::integer, $2::integer, $3::integer, margin => " _ 1
        (by decide) (by decide) (by decide)]
      rw [countOcc_skip_head 'm' _ _ _
        (margin_no buffer extent 'm' (by decide) (by decide))]
      rw [countOcc_step_concrete _ ")" _ 0 (by decide) (by decide) (by decide)]
      omega
    · next hs =>
      rw [if_neg (by simp [hs])]
      exact countOcc_step_concrete _
        "ST_TileEnvelope($1::integer, $2::integer, $3::integer)" y 0
        (by decide) (by decide) (by decide)

theorem countOcc_bbox_asmvt (buffer extent : Nat) (stm : Bool) (y : List Char) :
    countOcc ("ST_AsMVT(" : String).data ((bboxSearchStr buffer extent stm).data ++ y) =
      countOcc ("ST_AsMVT(" : String).data y := by
  unfold bboxSearchStr
  split
  · rw [countOcc_step_concrete _
      "ST_TileEnvelope($1::integer, $2::integer, $3::integer)" y 0
      (by decide) (by decide) (by decide)]
    exact Nat.zero_add _
  · split
    · simp only [String.data_append, List.append_assoc]
      rw [countOcc_step_concrete _
        "ST_TileEnvelope($1::integer, $2::integer, $3::integer, margin => " _ 0
        (by decide) (by decide) (by decide)]
      rw [countOcc_skip_head 'S' _ _ _
        (margin_no buffer extent 'S' (by decide) (by decide))]
      rw [countOcc_step_concrete _ ")" _ 0 (by decide) (by decide) (by decide)]
      omega
    · rw [countOcc_step_concrete _
        "ST_TileEnvelope($1::integer, $2::integer, $3::integer)" y 0
        (by decide) (by decide) (by decide)]
      exact Nat.zero_add _

/-- A concrete template piece that contributes nothing. -/
theorem countOcc_step_zero (p : List Char) (x : String) (y : List Char)
    (hp : p ≠ []) (h : noStraddleB p x.data = true)
    (hk : countOcc p x.data = 0) :
    countOcc p (x.data ++ y) = countOcc p y := by
  rw [countOcc_step_concrete p x y 0 hp h hk, Nat.zero_add]

/-- The quoted `geom` alias (`sqChar ++ "geom" ++ sqChar`) treated as one
piece: separately, `"geom"` could straddle into a following `argin =>`. -/
theorem countOcc_qgeom (P : List Char) (hP : P ≠ [])
    (hz : noStraddleB P (sqChar.toString ++ "geom" ++ sqChar.toString).data = true)
    (h0 : countOcc P (sqChar.toString ++ "geom" ++ sqChar.toString).data = 0) :
    ∀ y, countOcc P
      (sqChar.toString.data ++ (("geom" : String).data ++ (sqChar.toString.data ++ y))) =
      countOcc P y := by
  intro y
  have hx : (sqChar.toString ++ "geom" ++ sqChar.toString).data ++ y =
      sqChar.toString.data ++ (("geom" : String).data ++ (sqChar.toString.data ++ y)) := by
    simp only [String.data_append, List.append_assoc]
  rw [← hx, countOcc_step_zero P (sqChar.toString ++ "geom" ++ sqChar.toString) y hP hz h0]

/-- Occurrence counting over the query body, abstracted over the
pattern-specific behavior of every piece: templates contribute their own
counts (`k0` for the `ST_AsMVT` head, `kEnv` for the `ST_TileEnvelope`
template, `kBox` for the bbox fragment), all other pieces contribute
nothing. -/
theorem core_count (P : List Char) (id : String) (info : TableInfo)
    (stm : Bool) (mfc : Option Nat) (k0 kEnv kBox : Nat)
    (h0 : ∀ y, countOcc P (("SELECT\n  ST_AsMVT(tile, " : String).data ++ y) =
      k0 + countOcc P y)
    (hEnv : ∀ y, countOcc P
      (("), 3857),\n        ST_TileEnvelope($1::integer, $2::integer, $3::integer),\n        " : String).data ++ y) =
      kEnv + countOcc P y)
    (hbbox : ∀ y, countOcc P
      ((bboxSearchStr (info.buffer.getD 64) (info.extent.getD 4096) stm).data ++ y) =
      kBox + countOcc P y)
    (hcomma : ∀ y, countOcc P ((", " : String).data ++ y) = countOcc P y)
    (hqgeom : ∀ y, countOcc P
      (sqChar.toString.data ++ (("geom" : String).data ++ (sqChar.toString.data ++ y))) =
      countOcc P y)
    (h5 : ∀ y, countOcc P
      ((")\nFROM (\n  SELECT\n    ST_AsMVTGeom(\n        ST_Transform(ST_CurveToLine(" : String).data ++ y) =
      countOcc P y)
    (h7 : ∀ y, countOcc P (("\n    ) AS geom\n    " : String).data ++ y) = countOcc P y)
    (h8 : ∀ y, countOcc P (("\n  FROM\n    " : String).data ++ y) = countOcc P y)
    (h9 : ∀ y, countOcc P (("." : String).data ++ y) = countOcc P y)
    (h10 : ∀ y, countOcc P (("\n  WHERE\n    " : String).data ++ y) = countOcc P y)
    (h11 : ∀ y, countOcc P ((" && ST_Transform(" : String).data ++ y) = countOcc P y)
    (h12 : ∀ y, countOcc P ((")\n  " : String).data ++ y) = countOcc P y)
    (hlast : countOcc P (("\n) AS tile;" : String).data) = 0)
    (hlayer : ∀ y, countOcc P
      ((escape_literal (info.layer_id.getD id)).data ++ y) = countOcc P y)
    (hschema : ∀ y, countOcc P
      ((escape_identifier info.schema).data ++ y) = countOcc P y)
    (htable : ∀ y, countOcc P
      ((escape_identifier info.table).data ++ y) = countOcc P y)
    (hgeom : ∀ y, countOcc P
      ((escape_identifier info.geometry_column).data ++ y) = countOcc P y)
    (hnum : ∀ n y, countOcc P ((numStr n).data ++ y) = countOcc P y)
    (hbool : ∀ y, countOcc P
      ((boolStr (info.clip_geom.getD true)).data ++ y) = countOcc P y)
    (hint : ∀ y, countOcc P ((intStr info.srid).data ++ y) = countOcc P y)
    (hlimit : ∀ y, countOcc P ((limitStr mfc).data ++ y) = countOcc P y)
    (hidname : ∀ y, countOcc P ((idPairStr info).1.data ++ y) = countOcc P y)
    (hidfield : ∀ y, countOcc P ((idPairStr info).2.data ++ y) = countOcc P y)
    (hprops : ∀ y, countOcc P ((propertiesStr info).data ++ y) = countOcc P y) :
    countOcc P (tableQueryCore id info stm mfc).data = k0 + kEnv + kBox := by
  simp only [tableQueryCore, String.data_append, List.append_assoc]
  rw [h0, hlayer, hcomma, hnum, hcomma, hqgeom, hidname, h5, hgeom,
    hEnv, hnum, hcomma, hnum, hcomma, hbool, h7, hidfield, hprops, h8, hschema,
    h9, htable, h10, hgeom, h11, hbbox, hcomma, hint, h12, hlimit, hlast]
  omega

/-- The final `.trim()` strips exactly the template's leading and trailing
newline: the trimmed query has the same characters as the template body. -/
theorem table_to_query_sql_data (id : String) (info : TableInfo) (stm : Bool)
    (mfc : Option Nat) :
    (table_to_query_sql id info stm mfc).data =
      (tableQueryCore id info stm mfc).data := by
  have h1 : ∃ t, ("SELECT\n  ST_AsMVT(tile, " : String).data = 'S' :: t :=
    ⟨("ELECT\n  ST_AsMVT(tile, " : String).data, by decide⟩
  have h2 : ∃ t, ("\n) AS tile;" : String).data = t ++ [';'] :=
    ⟨("\n) AS tile" : String).data, by decide⟩
  have hstart : ∃ t, (tableQueryCore id info stm mfc).data = 'S' :: t := by
    simp only [tableQueryCore, String.data_append, List.append_assoc]
    exact starts_appendL _ _ _ h1
  have hend : ∃ t, (tableQueryCore id info stm mfc).data = t ++ [';'] := by
    simp only [tableQueryCore, String.data_append]
    exact ends_appendR _ _ _ h2
  have hdata : ("\n" ++ tableQueryCore id info stm mfc ++ "\n").data =
      '\n' :: ((tableQueryCore id info stm mfc).data ++ ['\n']) := by
    rw [String.data_append, String.data_append]
    rfl
  have hs : table_to_query_sql id info stm mfc =
      rustTrim ("\n" ++ tableQueryCore id info stm mfc ++ "\n") := rfl
  have hr : ∀ s : String, (rustTrim s).data = trimChars s.data := fun _ => rfl
  rw [hs, hr, hdata]
  exact trimChars_wrap _ hstart hend

/-- The five token counts over the query body, for any identifier-clean
configuration. -/
theorem tableQueryCore_counts (id : String) (info : TableInfo) (stm : Bool)
    (mfc : Option Nat)
    (hsch : idOk info.schema) (htab : idOk info.table)
    (hgc : idOk info.geometry_column) (hlay : idOk (info.layer_id.getD id))
    (hic : ∀ c, info.id_column = some c →
      idOk c ∧ idOk ((info.prop_mapping c).getD c))
    (hpk : ∀ ks, info.properties = some ks →
      ∀ k ∈ ks, idOk k ∧ idOk ((info.prop_mapping k).getD k)) :
    countOcc (("ST_AsMVT(" : String).data) (tableQueryCore id info stm mfc).data = 1 ∧
    countOcc (("$1" : String).data) (tableQueryCore id info stm mfc).data = 2 ∧
    countOcc (("$2" : String).data) (tableQueryCore id info stm mfc).data = 2 ∧
    countOcc (("$3" : String).data) (tableQueryCore id info stm mfc).data = 2 ∧
    countOcc (("margin =>" : String).data) (tableQueryCore id info stm mfc).data =
      (if info.buffer.getD 64 ≠ 0 ∧ stm = true then 1 else 0) := by
  refine ⟨?_, ?_, ?_, ?_, ?_⟩
  · exact core_count (("ST_AsMVT(" : String).data) id info stm mfc 1 0 0
      (fun y => countOcc_step_concrete _ "SELECT\n  ST_AsMVT(tile, " y 1
        (by decide) (by decide) (by decide))
      (fun y => countOcc_step_concrete _
        "), 3857),\n        ST_TileEnvelope($1::integer, $2::integer, $3::integer),\n        "
        y 0 (by decide) (by decide) (by decide))
      (fun y => (countOcc_bbox_asmvt _ _ _ y).trans (Nat.zero_add _).symm)
      (fun y => countOcc_step_zero _ ", " y (by decide) (by decide) (by decide))
      (countOcc_qgeom _ (by decide) (by decide) (by decide))
      (fun y => countOcc_step_zero _
        ")\nFROM (\n  SELECT\n    ST_AsMVTGeom(\n        ST_Transform(ST_CurveToLine("
        y (by decide) (by decide) (by decide))
      (fun y => countOcc_step_zero _ "\n    ) AS geom\n    " y (by decide) (by decide) (by decide))
      (fun y => countOcc_step_zero _ "\n  FROM\n    " y (by decide) (by decide) (by decide))
      (fun y => countOcc_step_zero _ "." y (by decide) (by decide) (by decide))
      (fun y => countOcc_step_zero _ "\n  WHERE\n    " y (by decide) (by decide) (by decide))
      (fun y => countOcc_step_zero _ " && ST_Transform(" y (by decide) (by decide) (by decide))
      (fun y => countOcc_step_zero _ ")\n  " y (by decide) (by decide) (by decide))
      (by decide)
      (fun y => countOcc_skip_eliteral _ (by decide) _ hlay y (by decide) '('
        (by decide) (by decide) (by decide) (by decide))
      (fun y => countOcc_skip_eident _ (by decide) _ hsch y (by decide) '('
        (by decide) (by decide) (by decide) (by decide))
      (fun y => countOcc_skip_eident _ (by decide) _ htab y (by decide) '('
        (by decide) (by decide) (by decide) (by decide))
      (fun y => countOcc_skip_eident _ (by decide) _ hgc y (by decide) '('
        (by decide) (by decide) (by decide) (by decide))
      (fun n y => countOcc_skip_head 'S' _ _ y (num_no n 'S' (by decide)))
      (fun y => countOcc_skip_head 'S' _ _ y (bool_no _ 'S' (by decide)))
      (fun y => countOcc_skip_head 'S' _ _ y (int_no info.srid 'S' (by decide) (by decide)))
      (fun y => countOcc_skip_head 'S' _ _ y (limit_no mfc 'S' (by decide) (by decide)))
      (fun y => countOcc_skip_idname _ (by decide) info y (fun c hc => (hic c hc).1)
        (by decide) '(' (by decide) (by decide) (by decide) (by decide) (by decide) (by decide))
      (fun y => countOcc_skip_idfield _ (by decide) info y hic (by decide) '('
        (by decide) (by decide) (by decide) (by decide) (by decide) (by decide)
        (by decide) (by decide))
      (fun y => countOcc_skip_props _ (by decide) info y hpk (by decide) '('
        (by decide) (by decide) (by decide) (by decide) (by decide) (by decide)
        (by decide) (by decide))
  · exact core_count (("$1" : String).data) id info stm mfc 0 1 1
      (fun y => countOcc_step_concrete _ "SELECT\n  ST_AsMVT(tile, " y 0
        (by decide) (by decide) (by decide))
      (fun y => countOcc_step_concrete _
        "), 3857),\n        ST_TileEnvelope($1::integer, $2::integer, $3::integer),\n        "
        y 1 (by decide) (by decide) (by decide))
      (fun y => countOcc_bbox_dollar '1' (Or.inl rfl) _ _ _ y)
      (fun y => countOcc_step_zero _ ", " y (by decide) (by decide) (by decide))
      (countOcc_qgeom _ (by decide) (by decide) (by decide))
      (fun y => countOcc_step_zero _
        ")\nFROM (\n  SELECT\n    ST_AsMVTGeom(\n        ST_Transform(ST_CurveToLine("
        y (by decide) (by decide) (by decide))
      (fun y => countOcc_step_zero _ "\n    ) AS geom\n    " y (by decide) (by decide) (by decide))
      (fun y => countOcc_step_zero _ "\n  FROM\n    " y (by decide) (by decide) (by decide))
      (fun y => countOcc_step_zero _ "." y (by decide) (by decide) (by decide))
      (fun y => countOcc_step_zero _ "\n  WHERE\n    " y (by decide) (by decide) (by decide))
      (fun y => countOcc_step_zero _ " && ST_Transform(" y (by decide) (by decide) (by decide))
      (fun y => countOcc_step_zero _ ")\n  " y (by decide) (by decide) (by decide))
      (by decide)
      (fun y => countOcc_skip_eliteral _ (by decide) _ hlay y (by decide) '$'
        (by decide) (by decide) (by decide) (by decide))
      (fun y => countOcc_skip_eident _ (by decide) _ hsch y (by decide) '$'
        (by decide) (by decide) (by decide) (by decide))
      (fun y => countOcc_skip_eident _ (by decide) _ htab y (by decide) '$'
        (by decide) (by decide) (by decide) (by decide))
      (fun y => countOcc_skip_eident _ (by decide) _ hgc y (by decide) '$'
        (by decide) (by decide) (by decide) (by decide))
      (fun n y => countOcc_skip_head '$' _ _ y (num_no n '$' (by decide)))
      (fun y => countOcc_skip_head '$' _ _ y (bool_no _ '$' (by decide)))
      (fun y => countOcc_skip_head '$' _ _ y (int_no info.srid '$' (by decide) (by decide)))
      (fun y => countOcc_skip_head '$' _ _ y (limit_no mfc '$' (by decide) (by decide)))
      (fun y => countOcc_skip_idname _ (by decide) info y (fun c hc => (hic c hc).1)
        (by decide) '$' (by decide) (by decide) (by decide) (by decide) (by decide) (by decide))
      (fun y => countOcc_skip_idfield _ (by decide) info y hic (by decide) '$'
        (by decide) (by decide) (by decide) (by decide) (by decide) (by decide)
        (by decide) (by decide))
      (fun y => countOcc_skip_props _ (by decide) info y hpk (by decide) '$'
        (by decide) (by decide) (by decide) (by decide) (by decide) (by decide)
        (by decide) (by decide))
  · exact core_count (("$2" : String).data) id info stm mfc 0 1 1
      (fun y => countOcc_step_concrete _ "SELECT\n  ST_AsMVT(tile, " y 0
        (by decide) (by decide) (by decide))
      (fun y => countOcc_step_concrete _
        "), 3857),\n        ST_TileEnvelope($1::integer, $2::integer, $3::integer),\n        "
        y 1 (by decide) (by decide) (by decide))
      (fun y => countOcc_bbox_dollar '2' (Or.inr (Or.inl rfl)) _ _ _ y)
      (fun y => countOcc_step_zero _ ", " y (by decide) (by decide) (by decide))
      (countOcc_qgeom _ (by decide) (by decide) (by decide))
      (fun y => countOcc_step_zero _
        ")\nFROM (\n  SELECT\n    ST_AsMVTGeom(\n        ST_Transform(ST_CurveToLine("
        y (by decide) (by decide) (by decide))
      (fun y => countOcc_step_zero _ "\n    ) AS geom\n    " y (by decide) (by decide) (by decide))
      (fun y => countOcc_step_zero _ "\n  FROM\n    " y (by decide) (by decide) (by decide))
      (fun y => countOcc_step_zero _ "." y (by decide) (by decide) (by decide))
      (fun y => countOcc_step_zero _ "\n  WHERE\n    " y (by decide) (by decide) (by decide))
      (fun y => countOcc_step_zero _ " && ST_Transform(" y (by decide) (by decide) (by decide))
      (fun y => countOcc_step_zero _ ")\n  " y (by decide) (by decide) (by decide))
      (by decide)
      (fun y => countOcc_skip_eliteral _ (by decide) _ hlay y (by decide) '$'
        (by decide) (by decide) (by decide) (by decide))
      (fun y => countOcc_skip_eident _ (by decide) _ hsch y (by decide) '$'
        (by decide) (by decide) (by decide) (by decide))
      (fun y => countOcc_skip_eident _ (by decide) _ htab y (by decide) '$'
        (by decide) (by decide) (by decide) (by decide))
      (fun y => countOcc_skip_eident _ (by decide) _ hgc y (by decide) '$'
        (by decide) (by decide) (by decide) (by decide))
      (fun n y => countOcc_skip_head '$' _ _ y (num_no n '$' (by decide)))
      (fun y => countOcc_skip_head '$' _ _ y (bool_no _ '$' (by decide)))
      (fun y => countOcc_skip_head '$' _ _ y (int_no info.srid '$' (by decide) (by decide)))
      (fun y => countOcc_skip_head '$' _ _ y (limit_no mfc '$' (by decide) (by decide)))
      (fun y => countOcc_skip_idname _ (by decide) info y (fun c hc => (hic c hc).1)
        (by decide) '$' (by decide) (by decide) (by decide) (by decide) (by decide) (by decide))
      (fun y => countOcc_skip_idfield _ (by decide) info y hic (by decide) '$'
        (by decide) (by decide) (by decide) (by decide) (by decide) (by decide)
        (by decide) (by decide))
      (fun y => countOcc_skip_props _ (by decide) info y hpk (by decide) '$'
        (by decide) (by decide) (by decide) (by decide) (by decide) (by decide)
        (by decide) (by decide))
  · exact core_count (("$3" : String).data) id info stm mfc 0 1 1
      (fun y => countOcc_step_concrete _ "SELECT\n  ST_AsMVT(tile, " y 0
        (by decide) (by decide) (by decide))
      (fun y => countOcc_step_concrete _
        "), 3857),\n        ST_TileEnvelope($1::integer, $2::integer, $3::integer),\n        "
        y 1 (by decide) (by decide) (by decide))
      (fun y => countOcc_bbox_dollar '3' (Or.inr (Or.inr rfl)) _ _ _ y)
      (fun y => countOcc_step_zero _ ", " y (by decide) (by decide) (by decide))
      (countOcc_qgeom _ (by decide) (by decide) (by decide))
      (fun y => countOcc_step_zero _
        ")\nFROM (\n  SELECT\n    ST_AsMVTGeom(\n        ST_Transform(ST_CurveToLine("
        y (by decide) (by decide) (by decide))
      (fun y => countOcc_step_zero _ "\n    ) AS geom\n    " y (by decide) (by decide) (by decide))
      (fun y => countOcc_step_zero _ "\n  FROM\n    " y (by decide) (by decide) (by decide))
      (fun y => countOcc_step_zero _ "." y (by decide) (by decide) (by decide))
      (fun y => countOcc_step_zero _ "\n  WHERE\n    " y (by decide) (by decide) (by decide))
      (fun y => countOcc_step_zero _ " && ST_Transform(" y (by decide) (by decide) (by decide))
      (fun y => countOcc_step_zero _ ")\n  " y (by decide) (by decide) (by decide))
      (by decide)
      (fun y => countOcc_skip_eliteral _ (by decide) _ hlay y (by decide) '$'
        (by decide) (by decide) (by decide) (by decide))
      (fun y => countOcc_skip_eident _ (by decide) _ hsch y (by decide) '$'
        (by decide) (by decide) (by decide) (by decide))
      (fun y => countOcc_skip_eident _ (by decide) _ htab y (by decide) '$'
        (by decide) (by decide) (by decide) (by decide))
      (fun y => countOcc_skip_eident _ (by decide) _ hgc y (by decide) '$'
        (by decide) (by decide) (by decide) (by decide))
      (fun n y => countOcc_skip_head '$' _ _ y (num_no n '$' (by decide)))
      (fun y => countOcc_skip_head '$' _ _ y (bool_no _ '$' (by decide)))
      (fun y => countOcc_skip_head '$' _ _ y (int_no info.srid '$' (by decide) (by decide)))
      (fun y => countOcc_skip_head '$' _ _ y (limit_no mfc '$' (by decide) (by decide)))
      (fun y => countOcc_skip_idname _ (by decide) info y (fun c hc => (hic c hc).1)
        (by decide) '$' (by decide) (by decide) (by decide) (by decide) (by decide) (by decide))
      (fun y => countOcc_skip_idfield _ (by decide) info y hic (by decide) '$'
        (by decide) (by decide) (by decide) (by decide) (by decide) (by decide)
        (by decide) (by decide))
      (fun y => countOcc_skip_props _ (by decide) info y hpk (by decide) '$'
        (by decide) (by decide) (by decide) (by decide) (by decide) (by decide)
        (by decide) (by decide))
  · exact (core_count (("margin =>" : String).data) id info stm mfc 0 0
      (if info.buffer.getD 64 ≠ 0 ∧ stm = true then 1 else 0)
      (fun y => countOcc_step_concrete _ "SELECT\n  ST_AsMVT(tile, " y 0
        (by decide) (by decide) (by decide))
      (fun y => countOcc_step_concrete _
        "), 3857),\n        ST_TileEnvelope($1::integer, $2::integer, $3::integer),\n        "
        y 0 (by decide) (by decide) (by decide))
      (fun y => countOcc_bbox_margin _ _ stm y)
      (fun y => countOcc_step_zero _ ", " y (by decide) (by decide) (by decide))
      (countOcc_qgeom _ (by decide) (by decide) (by decide))
      (fun y => countOcc_step_zero _
        ")\nFROM (\n  SELECT\n    ST_AsMVTGeom(\n        ST_Transform(ST_CurveToLine("
        y (by decide) (by decide) (by decide))
      (fun y => countOcc_step_zero _ "\n    ) AS geom\n    " y (by decide) (by decide) (by decide))
      (fun y => countOcc_step_zero _ "\n  FROM\n    " y (by decide) (by decide) (by decide))
      (fun y => countOcc_step_zero _ "." y (by decide) (by decide) (by decide))
      (fun y => countOcc_step_zero _ "\n  WHERE\n    " y (by decide) (by decide) (by decide))
      (fun y => countOcc_step_zero _ " && ST_Transform(" y (by decide) (by decide) (by decide))
      (fun y => countOcc_step_zero _ ")\n  " y (by decide) (by decide) (by decide))
      (by decide)
      (fun y => countOcc_skip_eliteral _ (by decide) _ hlay y (by decide) '>'
        (by decide) (by decide) (by decide) (by decide))
      (fun y => countOcc_skip_eident _ (by decide) _ hsch y (by decide) '>'
        (by decide) (by decide) (by decide) (by decide))
      (fun y => countOcc_skip_eident _ (by decide) _ htab y (by decide) '>'
        (by decide) (by decide) (by decide) (by decide))
      (fun y => countOcc_skip_eident _ (by decide) _ hgc y (by decide) '>'
        (by decide) (by decide) (by decide) (by decide))
      (fun n y => countOcc_skip_head 'm' _ _ y (num_no n 'm' (by decide)))
      (fun y => countOcc_skip_head 'm' _ _ y (bool_no _ 'm' (by decide)))
      (fun y => countOcc_skip_head 'm' _ _ y (int_no info.srid 'm' (by decide) (by decide)))
      (fun y => countOcc_skip_head 'm' _ _ y (limit_no mfc 'm' (by decide) (by decide)))
      (fun y => countOcc_skip_idname _ (by decide) info y (fun c hc => (hic c hc).1)
        (by decide) '>' (by decide) (by decide) (by decide) (by decide) (by decide) (by decide))
      (fun y => countOcc_skip_idfield _ (by decide) info y hic (by decide) '>'
        (by decide) (by decide) (by decide) (by decide) (by decide) (by decide)
        (by decide) (by decide))
      (fun y => countOcc_skip_props _ (by decide) info y hpk (by decide) '>'
        (by decide) (by decide) (by decide) (by decide) (by decide) (by decide)
        (by decide) (by decide))).trans (Nat.zero_add _)

/-- C3: for a parsed `Accept-Encoding` list that is neither empty nor a
sole `*` entry, whenever the spec's ordering — stable sort by quality
descending then table rank descending (gzip=5, brotli=4, zstd=3,
deflate=2, other=1, identity=0, `*`=0 for preferred gzip; gzip/brotli
swapped for preferred brotli) — has a first entry with positive quality
and a supported encoding ({gzip, brotli, identity}), `negotiate` returns
exactly that entry's encoding; in particular `gzip;q=1, br;q=0.5` with
preferred brotli negotiates gzip. -/
theorem negotiate_first_acceptable (l : List QualityItem)
    (pref : PreferredEncoding) (hne : l ≠ [])
    (hnotany : ¬(l.head?.map (fun q => q.item) = some EncPreference.any ∧
      l.length = 1)) :
    (∀ e, firstAcceptableSpec l pref = some e →
      ∃ enc, e.item = .specific enc ∧ negotiate l pref = some enc) ∧
    negotiate [⟨1000, .specific (.known .gzip)⟩, ⟨500, .specific (.known .brotli)⟩]
      PreferredEncoding.brotli = some (.known .gzip) := by
  constructor
  · intro e he
    have hposify : ∀ a : QualityItem,
        (decide (0 < a.quality) && isSupportedSpecific a.item) = true →
        decide (0 < a.quality) = true := by
      intro a ha
      rw [Bool.and_eq_true] at ha
      exact ha.1
    have hfind :
        ((insSort (rank_le pref) l).filter (fun q => decide (0 < q.quality))).find?
          (fun q => isSupportedSpecific q.item) = some e := by
      rw [find?_filter_comm]
      rw [find?_through_filter _ (fun q => decide (0 < q.quality)) hposify
        (insSort (rank_le pref) l)]
      rw [filter_insSort (rank_le pref) (rank_le_total pref) (rank_le_trans pref)]
      have hcongr : insSort (rank_le pref)
          (l.filter (fun q => decide (0 < q.quality))) =
          insSort (rank_le_spec pref)
          (l.filter (fun q => decide (0 < q.quality))) := by
        apply insSort_congr
        intro a ha b hb
        have hap : 0 < a.quality := by
          have := (List.mem_filter.1 ha).2
          simpa using this
        have hbp : 0 < b.quality := by
          have := (List.mem_filter.1 hb).2
          simpa using this
        exact rank_le_eq_spec pref a b hap hbp
      rw [hcongr,
        ← filter_insSort (rank_le_spec pref) (rank_le_spec_total pref)
          (rank_le_spec_trans pref),
        ← find?_through_filter _ (fun q => decide (0 < q.quality)) hposify
          (insSort (rank_le_spec pref) l)]
      rw [firstAcceptableSpec] at he
      exact he
    have hRe : (decide (0 < e.quality) && isSupportedSpecific e.item) = true := by
      rw [firstAcceptableSpec] at he
      have h0 := List.find?_some he
      exact h0
    have hsup : isSupportedSpecific e.item = true := by
      rw [Bool.and_eq_true] at hRe
      exact hRe.2
    obtain ⟨enc, henc⟩ : ∃ enc, e.item = .specific enc := by
      cases hi : e.item with
      | any => rw [hi] at hsup; exact absurd hsup (by simp [isSupportedSpecific])
      | specific enc => exact ⟨enc, rfl⟩
    refine ⟨enc, henc, ?_⟩
    simp only [negotiate, ranked_accept_items]
    rw [if_neg (by simpa [List.isEmpty_iff] using hne), if_neg hnotany]
    rw [hfind]
    simp only [Option.map_some', henc]
  · decide

/-- C3 (witness). -/
theorem negotiate_first_acceptable_witness :
    ([⟨1000, .specific (.known .gzip)⟩, ⟨500, .specific (.known .brotli)⟩] :
      List QualityItem) ≠ [] ∧
    firstAcceptableSpec
      [⟨1000, .specific (.known .gzip)⟩, ⟨500, .specific (.known .brotli)⟩]
      PreferredEncoding.brotli = some ⟨1000, .specific (.known .gzip)⟩ ∧
    negotiate [⟨1000, .specific (.known .gzip)⟩, ⟨500, .specific (.known .brotli)⟩]
      PreferredEncoding.brotli = some (.known .gzip) := by
  refine ⟨by decide, by decide, ?_⟩
  obtain ⟨enc, henc, hres⟩ :=
    (negotiate_first_acceptable
      [⟨1000, .specific (.known .gzip)⟩, ⟨500, .specific (.known .brotli)⟩]
      PreferredEncoding.brotli (by decide) (by decide)).1
      ⟨1000, .specific (.known .gzip)⟩ (by decide)
  have : enc = .known .gzip := by
    have h := henc.symm
    injection h
  rw [this] at hres
  exact hres

/-- C10: a sole `*` entry makes `negotiate` return the server-preferred
encoding without examining the entry's quality; in particular for the
sole entry `*;q=0` an uncompressed tile is still compressed with the
preferred codec (its encoding becomes the preferred one) rather than
being treated as having no acceptable encoding. -/
theorem negotiate_sole_any_ignores_quality :
    (∀ (q : Nat) (pref : PreferredEncoding),
      negotiate [⟨q, .any⟩] pref = some pref.header) ∧
    (∀ (data : TileData) (fmt : Format) (pref : Option PreferredEncoding),
      ∃ d, recompress data ⟨fmt, .uncompressed⟩ (some [⟨0, .any⟩]) pref =
        .ok ⟨d, ⟨fmt,
          match pref with
          | some .brotli => Encoding.brotli
          | _ => Encoding.gzip⟩⟩) := by
  constructor
  · intro q pref
    simp [negotiate]
  · intro data fmt pref
    match pref with
    | none => exact ⟨encode_gzip data, rfl⟩
    | some .gzip => exact ⟨encode_gzip data, rfl⟩
    | some .brotli => exact ⟨encode_brotli data, rfl⟩

/-- C7 (counterexample): when every per-source result is empty,
`get_tile_content` returns the empty tile with the sources' `TileInfo`
unchanged — here a source set stored as gzip-encoded MVT yields an empty
tile whose encoding is `gzip`, not `Uncompressed`, so the claimed
invariant "empty data ⇒ encoding = Uncompressed" fails. -/
theorem get_tile_content_empty_keeps_encoding :
    get_tile_content [[]] ⟨.mvt, .gzip⟩ none none 0 =
      .ok ⟨[], ⟨.mvt, .gzip⟩⟩ ∧
    Encoding.gzip ≠ Encoding.uncompressed := by
  exact ⟨by decide, by decide⟩

/-- C7 (amended): when all per-source results are empty,
`get_tile_content` returns `Tile::new(Vec::new(), self.info)` before any
re-encoding, so the empty tile carries the sources' stored `TileInfo`
unchanged; the "empty ⇒ Uncompressed" invariant therefore holds only when
the shared encoding already is `Uncompressed`. -/
theorem get_tile_content_all_empty (tiles : List TileData) (info : TileInfo)
    (accept_enc : Option (List QualityItem))
    (preferred_enc : Option PreferredEncoding) (z : Nat)
    (h : ∀ t ∈ tiles, t = []) :
    get_tile_content tiles info accept_enc preferred_enc z = .ok ⟨[], info⟩ := by
  have hfilter : tiles.filter (fun t => !t.isEmpty) = [] := by
    rw [List.filter_eq_nil_iff]
    intro t ht
    rw [h t ht]
    decide
  simp only [get_tile_content, hfilter]
  rfl

/-- C7 (witness). -/
theorem get_tile_content_all_empty_witness :
    (∀ t ∈ [([] : TileData), []], t = []) ∧
    get_tile_content [[], []] ⟨.mvt, .brotli⟩ none none 3 =
      .ok ⟨[], ⟨.mvt, .brotli⟩⟩ := by
  refine ⟨by decide, ?_⟩
  exact get_tile_content_all_empty [[], []] ⟨.mvt, .brotli⟩ none none 3 (by decide)

/-- C2: with at least two non-empty fetched tiles, the composer fails
with 400 (`cantMerge`) for every `Accept-Encoding` whenever the shared
`TileInfo` is not MVT with `Uncompressed` or `Gzip` encoding; in the two
allowed combinations the response succeeds and its body is the
byte-concatenation of the tiles in `source_ids` order (shown with the
client accepting the stored encoding, so that no re-coding alters the
bytes). -/
theorem get_tile_content_merge (tiles : List TileData) (info : TileInfo)
    (pref : Option PreferredEncoding) (z : Nat)
    (h2 : 2 ≤ (tiles.filter (fun t => !t.isEmpty)).length) :
    (∀ accept_enc,
      ¬(info.format = .mvt ∧
        (info.encoding = .uncompressed ∨ info.encoding = .gzip)) →
      get_tile_content tiles info accept_enc pref z = .error (.cantMerge info z)) ∧
    (info = ⟨.mvt, .uncompressed⟩ →
      get_tile_content tiles info none pref z = .ok ⟨tiles.flatten, info⟩) ∧
    (info = ⟨.mvt, .gzip⟩ →
      get_tile_content tiles info (some [⟨1000, .specific (.known .gzip)⟩]) pref z =
        .ok ⟨tiles.flatten, info⟩) := by
  obtain ⟨n, hn⟩ : ∃ n, (tiles.filter (fun t => !t.isEmpty)).length = n + 2 :=
    ⟨(tiles.filter (fun t => !t.isEmpty)).length - 2, by omega⟩
  refine ⟨?_, ?_, ?_⟩
  · intro accept_enc hno
    simp only [get_tile_content, hn]
    rw [if_neg hno]
  · rintro rfl
    simp only [get_tile_content, hn]
    rw [if_pos (by simp)]
    rfl
  · rintro rfl
    simp only [get_tile_content, hn]
    rw [if_pos (by simp)]
    rfl

/-- C2 (witness). -/
theorem get_tile_content_merge_witness :
    (2 ≤ (([[1], [2]] : List TileData).filter (fun t => !t.isEmpty)).length) ∧
    get_tile_content [[1], [2]] ⟨.mvt, .gzip⟩
      (some [⟨1000, .specific (.known .gzip)⟩]) none 0 =
      .ok ⟨[1, 2], ⟨.mvt, .gzip⟩⟩ ∧
    get_tile_content [[1], [2]] ⟨.mvt, .brotli⟩ none none 0 =
      .error (.cantMerge ⟨.mvt, .brotli⟩ 0) := by
  refine ⟨by decide, ?_, ?_⟩
  · exact (get_tile_content_merge [[1], [2]] ⟨.mvt, .gzip⟩ none 0 (by decide)).2.2 rfl
  · exact (get_tile_content_merge [[1], [2]] ⟨.mvt, .brotli⟩ none 0 (by decide)).1 none
      (by intro h; exact absurd h.2 (by decide))

/-- C9: repeating an already-listed font id contributes nothing:
`get_font_range` over `l₁ ++ id :: l₂` with `id ∈ l₁` (all of `l₁`
registered) equals `get_font_range` over `l₁ ++ l₂`; in particular the
output for the id list `A,A` equals the output for `A`. -/
theorem get_font_range_duplicate_ids (fonts : String → Option (List Nat))
    (l₁ l₂ : List String) (id : String) (A : String) (covA : List Nat)
    (hA : fonts A = some covA)
    (hreg : ∀ i ∈ l₁, (fonts i).isSome) (hid : id ∈ l₁) (s e : Nat) :
    get_font_range fonts (l₁ ++ id :: l₂) s e = get_font_range fonts (l₁ ++ l₂) s e ∧
    get_font_range fonts [A, A] s e = get_font_range fonts [A] s e := by
  constructor
  · exact get_font_range_congr_ids fonts _ _ s e
      (resolveFonts_dup fonts l₁ id l₂ _ hreg hid)
  · have h := get_font_range_congr_ids fonts ([A] ++ A :: []) ([A] ++ []) s e
      (resolveFonts_dup fonts [A] A [] _
        (by intro i hi; simp only [List.mem_singleton] at hi; subst hi; simp [hA])
        (by simp))
    simpa using h

/-- C1 (witness). -/
theorem get_font_range_first_covering_witness :
    ∃ r, get_font_range fontsW ["A"] (256 * 0) (256 * 0 + 255) = .ok r ∧
      (∀ cp, (∃ id, (id, cp) ∈ renderedGlyphs r) ↔
        (256 * 0 ≤ cp ∧ cp < 256 * 0 + 256 ∧
          ∃ id ∈ ["A"], ∃ cov, fontsW id = some cov ∧ cp ∈ cov)) ∧
      ((renderedGlyphs r).map Prod.snd).Nodup ∧
      (∀ id cp, (id, cp) ∈ renderedGlyphs r →
        firstCovering fontsW ["A"] cp = some id) :=
  get_font_range_first_covering fontsW ["A"] 0 (by decide) (by decide)

/-- C6 (witness). -/
theorem get_font_range_validation_witness :
    get_font_range fontsW ["A"] 300 100 =
      .error (.InvalidFontRangeStartEnd 300 100) ∧
    get_font_range fontsW ["A"] 100 355 =
      .error (.InvalidFontRangeStart 100) ∧
    get_font_range fontsW ["A"] 256 300 =
      .error (.InvalidFontRangeEnd 300) ∧
    get_font_range fontsW ["A"] 256 1023 =
      .error (.InvalidFontRange 256 1023) := by
  refine ⟨?_, ?_, ?_, ?_⟩
  · exact (get_font_range_validation fontsW ["A"] 300 100).1 (by decide)
  · exact (get_font_range_validation fontsW ["A"] 100 355).2.1
      (by decide) (by decide)
  · exact (get_font_range_validation fontsW ["A"] 256 300).2.2.1
      (by decide) (by decide) (by decide)
  · exact (get_font_range_validation fontsW ["A"] 256 1023).2.2.2.1
      (by decide) (by decide) (by decide) (by decide)

/-- C9 (witness). -/
theorem get_font_range_duplicate_ids_witness :
    get_font_range fontsW (["A"] ++ "A" :: []) 0 255 =
      get_font_range fontsW (["A"] ++ []) 0 255 ∧
    get_font_range fontsW ["A", "A"] 0 255 = get_font_range fontsW ["A"] 0 255 :=
  get_font_range_duplicate_ids fontsW ["A"] [] "A" "A" [3, 500]
    (by decide) (by decide) (by decide) 0 255

/-- C5: `calc_srid` resolves the SRID case by case: the default (or
nothing) when both SRIDs are 0; the configured SRID when only the database
SRID is 0; the database SRID when only the configured SRID is 0; nothing
when both are nonzero and different; the (common) configured SRID when
both are nonzero and equal. -/
theorem calc_srid_resolution (db cfg : Int) (dflt : Option Int) :
    (db = 0 → cfg = 0 → calc_srid db cfg dflt = dflt) ∧
    (db = 0 → cfg ≠ 0 → calc_srid db cfg dflt = some cfg) ∧
    (db ≠ 0 → cfg = 0 → calc_srid db cfg dflt = some db) ∧
    (db ≠ 0 → cfg ≠ 0 → db ≠ cfg → calc_srid db cfg dflt = none) ∧
    (db ≠ 0 → db = cfg → calc_srid db cfg dflt = some cfg) := by
  refine ⟨fun h1 h2 => ?_, fun h1 h2 => ?_, fun h1 h2 => ?_,
    fun h1 h2 h3 => ?_, fun h1 h2 => ?_⟩
  · unfold calc_srid
    rw [if_pos ⟨h1, h2⟩]
  · unfold calc_srid
    rw [if_neg (by omega), if_pos h1]
  · unfold calc_srid
    rw [if_neg (by omega), if_neg h1, if_pos h2]
  · unfold calc_srid
    rw [if_neg (by omega), if_neg h1, if_neg h2, if_pos h3]
  · unfold calc_srid
    rw [if_neg (by omega), if_neg h1, if_neg (by omega), if_neg (by omega)]

/-- C5 (witness). -/
theorem calc_srid_resolution_witness :
    calc_srid 0 0 (some 4326) = some 4326 ∧
    calc_srid 4326 3857 none = none ∧
    calc_srid 0 3857 none = some 3857 ∧
    calc_srid 4326 0 none = some 4326 ∧
    calc_srid 4326 4326 (some 3857) = some 4326 :=
  ⟨(calc_srid_resolution 0 0 (some 4326)).1 rfl rfl,
   (calc_srid_resolution 4326 3857 none).2.2.2.1 (by decide) (by decide) (by decide),
   (calc_srid_resolution 0 3857 none).2.1 rfl (by decide),
   (calc_srid_resolution 4326 0 none).2.2.1 (by decide) rfl,
   (calc_srid_resolution 4326 4326 (some 3857)).2.2.2.2 (by decide) rfl⟩

/-- C8 (counterexample): the program's reserved-keyword list also contains
`help`, which is not one of the spec's eight words, so the reserved set is
not exactly the eight claimed keywords. -/
theorem reserved_keywords_has_help :
    "help" ∈ RESERVED_KEYWORDS ∧
    "help" ∉ (["catalog", "config", "health", "index", "manifest",
      "refresh", "reload", "status"] : List String) :=
  ⟨by decide, by decide⟩

/-- C8 (amended): a string is in the program's reserved-keyword list if
and only if it is one of the nine words `catalog`, `config`, `health`,
`help`, `index`, `manifest`, `refresh`, `reload`, `status`. -/
theorem reserved_keywords_exact (s : String) :
    s ∈ RESERVED_KEYWORDS ↔
      (s = "catalog" ∨ s = "config" ∨ s = "health" ∨ s = "help" ∨
       s = "index" ∨ s = "manifest" ∨ s = "refresh" ∨ s = "reload" ∨
       s = "status") := by
  simp [RESERVED_KEYWORDS]

/-- C4 (counterexample): already for the minimal table configuration the
generated SQL references the positional parameter `$1` twice (once in each
of the two `ST_TileEnvelope` calls), not exactly once. -/
theorem table_to_query_dollar_twice :
    countOcc (("$1" : String).data)
      (table_to_query_sql "src" sampleTable true none).data = 2 ∧
    (2 : Nat) ≠ 1 :=
  ⟨by decide, by decide⟩

/-- C4 (amended): for every identifier-clean table configuration the SQL
produced by `table_to_query` contains exactly one `ST_AsMVT(` call and
exactly two occurrences of each positional parameter `$1`, `$2`, `$3`
(one in each of the two `ST_TileEnvelope` calls), and contains the
`margin =>` form iff the pool reports tile-margin support (PostGIS ≥ 3.1)
and the effective buffer is nonzero. -/
theorem table_to_query_shape (id : String) (info : TableInfo) (stm : Bool)
    (mfc : Option Nat)
    (hsch : idOk info.schema) (htab : idOk info.table)
    (hgc : idOk info.geometry_column) (hlay : idOk (info.layer_id.getD id))
    (hic : ∀ c, info.id_column = some c →
      idOk c ∧ idOk ((info.prop_mapping c).getD c))
    (hpk : ∀ ks, info.properties = some ks →
      ∀ k ∈ ks, idOk k ∧ idOk ((info.prop_mapping k).getD k)) :
    countOcc (("ST_AsMVT(" : String).data)
      (table_to_query_sql id info stm mfc).data = 1 ∧
    countOcc (("$1" : String).data)
      (table_to_query_sql id info stm mfc).data = 2 ∧
    countOcc (("$2" : String).data)
      (table_to_query_sql id info stm mfc).data = 2 ∧
    countOcc (("$3" : String).data)
      (table_to_query_sql id info stm mfc).data = 2 ∧
    countOcc (("margin =>" : String).data)
      (table_to_query_sql id info stm mfc).data =
      (if info.buffer.getD 64 ≠ 0 ∧ stm = true then 1 else 0) := by
  rw [table_to_query_sql_data]
  exact tableQueryCore_counts id info stm mfc hsch htab hgc hlay hic hpk

/-- C4 (witness). -/
theorem table_to_query_shape_witness :
    countOcc (("$2" : String).data)
      (table_to_query_sql "src" sampleTableFull true (some 1000)).data = 2 ∧
    countOcc (("margin =>" : String).data)
      (table_to_query_sql "src" sampleTableFull true (some 1000)).data = 1 := by
  have h := table_to_query_shape "src" sampleTableFull true (some 1000)
    (by decide) (by decide) (by decide) (by decide)
    (by
      intro c hc
      injection hc with hc
      subst hc
      exact ⟨by decide, by decide⟩)
    (by
      intro ks hks k hk
      injection hks with hks
      subst hks
      simp only [List.mem_singleton] at hk
      subst hk
      exact ⟨by decide, by decide⟩)
  refine ⟨h.2.2.1, ?_⟩
  rw [h.2.2.2.2]
  decide

end Martin
